import Mathlib

/-!
Shallow embedding of the volume cache and timeline-navigation engine of
OpenChronoMorphViewer (src/main/timeline.py and src/main/volumeimage.py),
together with proofs about the claims of the specification.

Modelling conventions:
* Python floats (timestamps, phases, periods, priorities) are modelled as
  rationals; machine integers are unbounded in Python, so `Int`/`Nat` are
  used directly.
* On-disk decoding (NRRD/TIFF parsing) is an external collaborator per the
  spec; each volume handle carries an oracle describing what reading its
  header (`headerSrc`) and its payload (`disk`) would produce.
* Python `assert` statements are modelled as hypotheses of the theorems
  that exercise the corresponding operations.
* The error reporter sink is fire-and-forget in the source; load errors
  forwarded to it by `Timeline._load_volume` are dropped by the model.
-/

namespace OCMV

unseal Rat.sub Rat.add Rat.mul Rat.inv

/-- Pixel data types that survive header validation in the source
(uint8/int8/uint16/int16); `itemsize` mirrors numpy's per-element size. -/
inductive DType where
  | uint8
  | int8
  | uint16
  | int16
deriving DecidableEq, Repr

def DType.itemsize : DType → Nat
  | .uint8 => 1
  | .int8 => 1
  | .uint16 => 2
  | .int16 => 2

/-- Mirrors volumeimage.FileFormat (UNKNOWN / NRRD / TIFF). -/
inductive FileFormat where
  | unknown
  | nrrd
  | tiff
deriving DecidableEq, Repr

/-- Mirrors errorreporter.FileError: a (message, path) pair. -/
structure FileError where
  message : String
  path : String
deriving DecidableEq, Repr

/-- A loaded image buffer: its numpy shape, dtype and whether it is
all-zero (the placeholder produced by `_fail_load` is all-zero). -/
structure Img where
  shape : List Nat
  dtype : DType
  zero : Bool
deriving DecidableEq, Repr

/-- What reading the payload of a volume from disk would produce: either a
raised exception (message) or a raw array with a shape and dtype.
`headerChanged` models the NRRD re-read header comparison failing
("File has changed since the header was initially read"). -/
inductive DiskPayload where
  | failRead (msg : String)
  | ok (shape : List Nat) (dtype : DType) (zero : Bool) (headerChanged : Bool)
deriving DecidableEq, Repr

/-- Header metadata as produced by a successful `read_header`; the parsing
and validation of the on-disk header format is the external decoder
collaborator (spec section 1), so the model receives its result directly. -/
structure Meta where
  groupIndex : Nat
  timeIndex : Nat
  nTimes : Nat
  period : ℚ
  periodUnit : String
  timestamp : Option String
  dims : List Nat
  dtype : DType
  switchEndian : Bool
  transposeZCYX : Bool
deriving DecidableEq, Repr

deriving instance DecidableEq for Except

/-- One source location handed to `set_file_paths`: the path plus the
oracles for its header read and its payload read. -/
structure Source where
  path : String
  format : FileFormat
  header : Except String Meta
  disk : DiskPayload
deriving DecidableEq, Repr

/-- Mirrors volumeimage.VolumeImage.  Fields default to the values set in
`__init__`; `headerRead` stands for `self.header is not None`, `image` for
`self.image`, `hasVtk` for `self._vtk_image is not None`. -/
structure Vol where
  path : String := ""
  format : FileFormat := .unknown
  headerRead : Bool := false
  dims : List Nat := []
  dtype : DType := .uint8
  switchEndian : Bool := false
  groupIndex : Nat := 0
  timeIndex : Nat := 0
  nTimes : Nat := 1
  period : ℚ := 1
  periodUnit : String := "sec"
  timestamp : Option String := none
  transposeZCYX : Bool := false
  label : String := ""
  accessTime : ℚ := 0
  image : Option Img := none
  hasVtk : Bool := false
  headerSrc : Except String Meta := .error ""
  disk : DiskPayload := .failRead ""
deriving DecidableEq, Repr

/-- VolumeImage construction from a path/source (the `__init__` body). -/
def mkVolume (s : Source) : Vol :=
  { path := s.path, format := s.format, headerSrc := s.header, disk := s.disk }

namespace Vol

/-- Mirrors VolumeImage.is_loaded: `self.image is not None`. -/
def is_loaded (v : Vol) : Bool :=
  v.image.isSome

/-- Mirrors VolumeImage.estimate_memory:
`self.dtype.itemsize * int(np.prod(self.dims))`. -/
def estimate_memory (v : Vol) : Nat :=
  v.dtype.itemsize * v.dims.prod

/-- Mirrors VolumeImage.phase: `self.time_index / self.n_times`. -/
def phase (v : Vol) : ℚ :=
  (v.timeIndex : ℚ) / (v.nTimes : ℚ)

/-- Mirrors VolumeImage.unload: releases the payload reference. -/
def unload (v : Vol) : Vol :=
  { v with image := none, hasVtk := false }

/-- Mirrors VolumeImage.read_header: dispatch on the file format; on a
successful parse populate the metadata fields and set the header, on a
failure return a FileError and leave the handle untouched.  The parse
itself (read_nrrd_header / read_tiff_header internals) is the external
decoder, represented by the `headerSrc` oracle. -/
def read_header (v : Vol) : Vol × Option FileError :=
  match v.format with
  | .unknown =>
    (v, some ⟨"Unsupported file format; only NRRD/NHDR and TIFF are supported.", v.path⟩)
  | _ =>
    match v.headerSrc with
    | .error e => (v, some ⟨e, v.path⟩)
    | .ok m =>
      ({ v with
          headerRead := true
          dims := m.dims
          dtype := m.dtype
          switchEndian := m.switchEndian
          groupIndex := m.groupIndex
          timeIndex := m.timeIndex
          nTimes := m.nTimes
          period := m.period
          periodUnit := m.periodUnit
          timestamp := m.timestamp
          transposeZCYX := m.transposeZCYX }, none)

/-- Mirrors VolumeImage._fail_load: substitute a zero-filled uint8 buffer
of shape `self.dims`, create the VTK image, and produce the FileError. -/
def _fail_load (v : Vol) (message : String) : Vol × FileError :=
  ({ v with image := some { shape := v.dims, dtype := .uint8, zero := true },
            hasVtk := true },
   { message := message, path := v.path })

/-- Shape of the current `self.image` (`[]` when absent; the source only
reads it when an image is present). -/
def img_shape (v : Vol) : List Nat :=
  (v.image.map Img.shape).getD []

/-- Dtype of the current `self.image`. -/
def img_dtype (v : Vol) : DType :=
  (v.image.map Img.dtype).getD .uint8

/-- Apply a transformation to the current image buffer. -/
def set_img (v : Vol) (f : Img → Img) : Vol :=
  { v with image := v.image.map f }

/-- Mirrors VolumeImage.load_tiff.  Note the two mismatch checks call
`self._fail_load(...)` WITHOUT returning its result, exactly as the
source does (the produced FileError is discarded and the method falls
through to a successful `return None`). -/
def load_tiff (v : Vol) : Vol × Option FileError :=
  match v.disk with
  | .failRead msg =>
    let r := v._fail_load ("Failed to open the file: " ++ msg)
    (r.1, some r.2)
  | .ok shape dt zero _hdrChanged =>
    let v1 : Vol := { v with image := some { shape := shape, dtype := dt, zero := zero } }
    let v2 : Vol :=
      if v1.img_shape.prod ≠ v1.dims.prod then
        (v1._fail_load "File dimensions do not match the initially read metadata").1
      else v1
    let v3 : Vol :=
      if v2.dtype ≠ v2.img_dtype then
        (v2._fail_load "File data type does not match the initially read metadata").1
      else v2
    let v4 : Vol :=
      if v3.dtype = .int8 then
        v3.set_img (fun im => { im with dtype := .uint8, zero := false })
      else v3
    let v5 : Vol :=
      if v4.transposeZCYX then
        v4.set_img (fun im =>
          { im with shape := [v4.dims.getD 3 0, v4.dims.getD 1 0, v4.dims.getD 2 0, v4.dims.getD 0 0] })
      else
        v4.set_img (fun im => { im with shape := v4.dims.reverse })
    ({ v5 with hasVtk := true }, none)

/-- Mirrors VolumeImage.load_nrrd.  Every failure path returns the
FileError produced by `_fail_load`; `headerChanged` models the
type/sizes comparison against the freshly re-read header. -/
def load_nrrd (v : Vol) : Vol × Option FileError :=
  match v.disk with
  | .failRead msg =>
    let r := v._fail_load msg
    (r.1, some r.2)
  | .ok shape dt zero hdrChanged =>
    let v1 : Vol := { v with image := some { shape := shape, dtype := dt, zero := zero } }
    if hdrChanged then
      let r := v1._fail_load "File has changed since the header was initially read"
      (r.1, some r.2)
    else
      let v2 : Vol :=
        if v1.img_shape.length = 3 then
          v1.set_img (fun im => { im with shape := v1.dims.reverse })
        else v1
      ({ v2 with hasVtk := true }, none)

/-- Mirrors VolumeImage.load: return immediately when already resident,
otherwise dispatch on the format; an unrecognized format falls through
the `with` block to `return self._fail_load(...)`. -/
def load (v : Vol) : Vol × Option FileError :=
  if v.is_loaded then (v, none)
  else
    match v.format with
    | .nrrd => v.load_nrrd
    | .tiff => v.load_tiff
    | .unknown =>
      let r := v._fail_load "File format unrecognized or not supported."
      (r.1, some r.2)

/-- Mirrors VolumeImage.make_label; the numeric string formatting of the
source is abstracted by `toString` of the components. -/
def make_label (v : Vol) (time_sum : ℚ) (index : Nat) (n_volumes : Nat) : Vol :=
  { v with label :=
      "phi = " ++ toString v.timeIndex ++ "/" ++ toString v.nTimes ++
      " (" ++ toString time_sum ++ " " ++ v.periodUnit ++ "), t2 = " ++
      toString v.groupIndex ++ ", i = " ++ toString (index + 1) ++ "/" ++
      toString n_volumes }

/-- Mirrors VolumeImage.vtk_image: stamp `access_time` with the current
time, (re)load, return the VTK handle.  `now` stands for `time.time()`. -/
def vtk_image (v : Vol) (now : ℚ) : Vol × Bool :=
  let v1 : Vol := { v with accessTime := now }
  let v2 : Vol := v1.load.1
  (v2, v2.hasVtk)

end Vol

/-- Mirrors timeline.Timeline's cache-relevant state.
`indicesByCachePriority` starts unset in `__init__`; it is only read
after `seek` ran, and is modelled with an empty-list default. -/
structure Timeline where
  memoryTarget : Int := 0
  index : Nat := 0
  volumes : List Vol := []
  memoryUsed : Int := 0
  available : Bool := false
  indicesByCachePriority : List Nat := []
deriving DecidableEq, Repr

/-- Indexing helper: `self.volumes[i]` (total, with a default handle;
theorems carry the in-range hypotheses that the source's list indexing
and asserts imply). -/
def gv (vols : List Vol) (i : Nat) : Vol :=
  vols.getD i {}

/-- Contribution of one handle to the resident-memory sum. -/
def memTerm (v : Vol) : Int :=
  if v.is_loaded then (v.estimate_memory : Int) else 0

/-- Sum of `estimate_memory()` over the resident handles. -/
def memSum (vols : List Vol) : Int :=
  ∑ i ∈ Finset.range vols.length, memTerm (gv vols i)

/-- The residual invariant of the spec (section 3): the running tally
equals the sum of the resident handles' estimated costs. -/
def memAccount (tl : Timeline) : Prop :=
  tl.memoryUsed = memSum tl.volumes

/-- The eviction candidates of `Timeline._load_volume`:
`sorted(filter(lambda vo: vo.is_loaded(), self.volumes), key=lambda vo: vo.access_time)`,
expressed on indices.  Python's `sorted` is a stable sort, and a stable
sort under a total preorder is a unique permutation, so the stable
`insertionSort` computes the same list. -/
def sortedLoadedIdx (vols : List Vol) : List Nat :=
  List.insertionSort (fun a b => (gv vols a).accessTime ≤ (gv vols b).accessTime)
    ((List.range vols.length).filter (fun i => (gv vols i).is_loaded))

/-- The eviction loop of `Timeline._load_volume`: walk the candidates in
ascending access-time order; before each candidate, stop if under budget;
otherwise record the candidate's estimate, unload it and subtract. -/
def evictLoop (target : Int) : List Nat → List Vol → Int → List Vol × Int
  | [], vols, mem => (vols, mem)
  | c :: rest, vols, mem =>
    if mem ≤ target then (vols, mem)
    else
      let recovered : Int := (gv vols c).estimate_memory
      evictLoop target rest (vols.set c (gv vols c).unload) (mem - recovered)

namespace Timeline

/-- Mirrors Timeline._make_cache_priorities' priority value for index `i`:
`4 / (1 + forward) + 1 / (1 + backward)` with the wrap-around distances
`forward = (i - index) % n` and `backward = (index - i) % n`. -/
def cache_priority (n index i : Nat) : ℚ :=
  let forward : Nat := (((i : Int) - (index : Int)) % (n : Int)).toNat
  let backward : Nat := (((index : Int) - (i : Int)) % (n : Int)).toNat
  4 / (1 + (forward : ℚ)) + 1 / (1 + (backward : ℚ))

/-- Mirrors Timeline._make_cache_priorities: sort all indices descending
by priority.  Python's `list.sort(key=..., reverse=True)` is a stable
descending sort, which the stable `insertionSort` under the reversed
comparison reproduces exactly. -/
def _make_cache_priorities (n index : Nat) : List Nat :=
  List.insertionSort
    (fun a b => cache_priority n index b ≤ cache_priority n index a)
    (List.range n)

/-- Mirrors Timeline.seek: set the cursor, recompute cache priorities. -/
def seek (tl : Timeline) (index : Nat) : Timeline :=
  { tl with index := index,
            indicesByCachePriority := _make_cache_priorities tl.volumes.length index }

/-- Mirrors Timeline._load_volume: under the load lock, return if the
volume is resident; otherwise tentatively add its estimate, run the
eviction loop over the other resident handles (oldest access first),
then load the handle (its load error goes to the error reporter sink,
which the model drops). -/
def _load_volume (tl : Timeline) (index : Nat) : Timeline :=
  let vol := gv tl.volumes index
  if vol.is_loaded then tl
  else
    let mem1 : Int := tl.memoryUsed + (vol.estimate_memory : Int)
    let r := evictLoop tl.memoryTarget (sortedLoadedIdx tl.volumes) tl.volumes mem1
    { tl with volumes := r.1.set index vol.load.1, memoryUsed := r.2 }

/-- Mirrors Timeline.get: optionally preload, then return the handle. -/
def get (tl : Timeline) (index : Nat) (preload : Bool) : Timeline × Vol :=
  let tl' := if preload then tl._load_volume index else tl
  (tl', gv tl'.volumes index)

/-- Mirrors Timeline.unload_volume: unload the handle, then subtract its
estimate from the tally (unconditionally, loaded or not). -/
def unload_volume (tl : Timeline) (index : Nat) : Timeline :=
  let v := gv tl.volumes index
  { tl with volumes := tl.volumes.set index v.unload,
            memoryUsed := tl.memoryUsed - (v.unload.estimate_memory : Int) }

end Timeline

/-- Python's `abs` on rationals (kept kernel-computable; equal to
Mathlib's `|x|` by `qabs_eq_abs` below). -/
def qabs (x : ℚ) : ℚ :=
  if x < 0 then -x else x

/-- Mirrors the circular phase distance of the group-navigation queries:
`diff = abs(a - b); if diff > 0.5: diff = 1 - diff`. -/
def circDiff (a b : ℚ) : ℚ :=
  let d := qabs (a - b)
  if 1 / 2 < d then 1 - d else d

/-- First while loop of get_prev_group_index:
`while i > 0 and group_index == volumes[i].group_index: i -= 1`. -/
def walkDown (vols : List Vol) (g : Nat) : Nat → Nat
  | 0 => 0
  | i + 1 => if (gv vols (i + 1)).groupIndex = g then walkDown vols g i else i + 1

/-- Second while loop of get_prev_group_index: scan downward through the
group at `i`, tracking the member with the closest circular phase
(`diff <= smallest_diff` updates, so lower indices win ties). -/
def scanDown (vols : List Vol) (g : Nat) (ph : ℚ) : Nat → Nat → ℚ → Nat × ℚ
  | 0, iBest, sd =>
    if (gv vols 0).groupIndex = g then
      let d := circDiff ph (gv vols 0).phase
      if d ≤ sd then (0, d) else (iBest, sd)
    else (iBest, sd)
  | i + 1, iBest, sd =>
    if (gv vols (i + 1)).groupIndex = g then
      let d := circDiff ph (gv vols (i + 1)).phase
      if d ≤ sd then scanDown vols g ph i (i + 1) d
      else scanDown vols g ph i iBest sd
    else (iBest, sd)

/-- First while loop of get_next_group_index with explicit fuel
(`fuel = i_max - i` keeps `i < i_max` equivalent to `fuel > 0`):
`while i < i_max and group_index == volumes[i].group_index: i += 1`. -/
def walkUp (vols : List Vol) (g : Nat) : Nat → Nat → Nat
  | 0, i => i
  | fuel + 1, i => if (gv vols i).groupIndex = g then walkUp vols g fuel (i + 1) else i

/-- Second while loop of get_next_group_index with fuel
(`fuel = i_max + 1 - i` keeps `i <= i_max` equivalent to `fuel > 0`):
scan upward through the group at `i`, `diff <= smallest_diff` updates,
so higher indices win ties. -/
def scanUp (vols : List Vol) (g : Nat) (ph : ℚ) : Nat → Nat → Nat → ℚ → Nat × ℚ
  | 0, _, iBest, sd => (iBest, sd)
  | fuel + 1, i, iBest, sd =>
    if (gv vols i).groupIndex = g then
      let d := circDiff ph (gv vols i).phase
      if d ≤ sd then scanUp vols g ph fuel (i + 1) i d
      else scanUp vols g ph fuel (i + 1) iBest sd
    else (iBest, sd)

namespace Timeline

/-- Mirrors Timeline.get_prev_group_index. -/
def get_prev_group_index (tl : Timeline) : Nat :=
  let i := tl.index
  let g := (gv tl.volumes i).groupIndex
  let ph := (gv tl.volumes i).phase
  let i1 := walkDown tl.volumes g i
  let g1 := (gv tl.volumes i1).groupIndex
  (scanDown tl.volumes g1 ph i1 i1 1).1

/-- Mirrors Timeline.get_next_group_index. -/
def get_next_group_index (tl : Timeline) : Nat :=
  let i := tl.index
  let g := (gv tl.volumes i).groupIndex
  let ph := (gv tl.volumes i).phase
  let iMax := tl.volumes.length - 1
  let i1 := walkUp tl.volumes g (iMax - i) i
  let g1 := (gv tl.volumes i1).groupIndex
  (scanUp tl.volumes g1 ph (iMax + 1 - i1) i1 i1 1).1

end Timeline

/-- Ascending (group_index, time_index) order used by set_file_paths'
`volumes.sort(key=lambda vol: (vol.group_index, vol.time_index))`. -/
def sortLE (u v : Vol) : Prop :=
  u.groupIndex < v.groupIndex ∨ (u.groupIndex = v.groupIndex ∧ u.timeIndex ≤ v.timeIndex)

instance : DecidableRel sortLE := fun u v => by
  unfold sortLE; infer_instance

/-- The header-reading loop of set_file_paths: read each header in input
order, collecting errors; after each handle invoke the progress callback
with the running count, truncating the batch when it cancels. -/
def read_headers_loop (cb : Nat → Bool) : List Vol → Nat → List Vol × List FileError
  | [], _ => ([], [])
  | v :: rest, i =>
    let r := v.read_header
    let errs : List FileError := match r.2 with | some e => [e] | none => []
    if cb (i + 1) then ([r.1], errs)
    else
      let rec' := read_headers_loop cb rest (i + 1)
      (r.1 :: rec'.1, errs ++ rec'.2)

/-- The labelling loop of set_file_paths: accumulate time within each
group (resetting the accumulator at a group change; the group tracker
starts as `None`), label each handle, advance by its period. -/
def label_loop (g : Option Nat) (time_sum : ℚ) (i n : Nat) : List Vol → List Vol
  | [] => []
  | v :: rest =>
    let ts : ℚ := if some v.groupIndex ≠ g then 0 else time_sum
    (v.make_label ts i n) :: label_loop (some v.groupIndex) (ts + v.period) (i + 1) n rest

namespace Timeline

/-- Mirrors Timeline.set_file_paths: build handles, read headers with
cancellable progress, drop the erroneous handles (deleting the flagged
indices from highest to lowest equals keeping the unflagged handles in
order), sort by (group_index, time_index) with a stable sort, label, and
— when any handle survived — replace the volume list, zero the tally,
seek 0 and mark the timeline available; always return the errors. -/
def set_file_paths (file_paths : List Source) (cb : Nat → Bool) (tl : Timeline) :
    Timeline × List FileError :=
  let volumes0 := file_paths.map mkVolume
  let r := read_headers_loop cb volumes0 0
  let kept := r.1.filter (fun v => v.headerRead)
  let sortedVols := List.insertionSort sortLE kept
  let labeled := label_loop none 0 0 sortedVols.length sortedVols
  if labeled.length > 0 then
    ({ tl with volumes := labeled
               memoryUsed := 0
               index := 0
               indicesByCachePriority := _make_cache_priorities labeled.length 0
               available := true }, r.2)
  else (tl, r.2)

/-- First not-yet-resident index in the cache priority order (the scan of
`_run_cache`'s for loop). -/
def first_unloaded (vols : List Vol) : List Nat → Option Nat
  | [] => none
  | i :: rest => if (gv vols i).is_loaded then first_unloaded vols rest else some i

/-- One iteration of the `_run_cache` daemon loop, minus the sleeping and
the joins on priority threads (which do not change cache state): bail out
when no volumes are available or memory is full; otherwise load the first
unloaded volume in priority order under the lock and add its estimate. -/
def run_cache_step (tl : Timeline) : Timeline :=
  if !tl.available then tl
  else if tl.memoryTarget ≤ tl.memoryUsed then tl
  else
    match first_unloaded tl.volumes tl.indicesByCachePriority with
    | none => tl
    | some i =>
      let v' := (gv tl.volumes i).load.1
      { tl with volumes := tl.volumes.set i v',
                memoryUsed := tl.memoryUsed + (v'.estimate_memory : Int) }

end Timeline

/-! ### Concrete states used by the counterexamples and witnesses -/

instance : IsTotal Vol sortLE :=
  ⟨fun u v => by unfold sortLE; omega⟩

instance : IsTrans Vol sortLE :=
  ⟨fun u v w h1 h2 => by unfold sortLE at *; omega⟩

/-- The disjunction that is inductively maintained across a sequence of
loads with a fixed memory target: within budget, or a single oversized
resident handle, or nothing resident yet. -/
def Timeline.budgetOk (tl : Timeline) : Prop :=
  tl.memoryUsed ≤ tl.memoryTarget ∨
  (∃ r, r < tl.volumes.length ∧ (gv tl.volumes r).is_loaded ∧
    (∀ j, j < tl.volumes.length → j ≠ r → ¬ (gv tl.volumes j).is_loaded) ∧
    ((gv tl.volumes r).estimate_memory : Int) > tl.memoryTarget) ∨
  (∀ j, j < tl.volumes.length → ¬ (gv tl.volumes j).is_loaded)

/-- A fresh two-volume timeline (nothing resident, tally 0) whose second
volume alone exceeds the budget. -/
def tlW1 : Timeline :=
  { memoryTarget := 10,
    volumes :=
      [{ dims := [1, 1, 1, 5], dtype := .uint8, headerRead := true, format := .nrrd,
         disk := .ok [1, 1, 1, 5] .uint8 false false },
       { dims := [1, 1, 1, 50], dtype := .uint8, headerRead := true, format := .nrrd,
         disk := .ok [1, 1, 1, 50] .uint8 false false, accessTime := 1 }],
    memoryUsed := 0 }

/-- Three handles: two resident with distinct access times, a third
requested one; the budget forces exactly one eviction. -/
def tlW2 : Timeline :=
  { memoryTarget := 10, memoryUsed := 10,
    volumes :=
      [{ dims := [1, 1, 1, 5], dtype := .uint8, headerRead := true, accessTime := 1,
         image := some { shape := [1, 1, 1, 5], dtype := .uint8, zero := false } },
       { dims := [1, 1, 1, 5], dtype := .uint8, headerRead := true, accessTime := 2,
         image := some { shape := [1, 1, 1, 5], dtype := .uint8, zero := false } },
       { dims := [1, 1, 1, 5], dtype := .uint8, headerRead := true, format := .nrrd,
         disk := .ok [1, 1, 1, 5] .uint8 false false }] }

/-- A timeline with one non-resident handle of nonzero estimated cost and
a correct tally. -/
def tlC4 : Timeline :=
  { volumes := [{ dims := [1, 1, 1, 5], dtype := .uint8, headerRead := true }],
    memoryUsed := 0 }

/-- A timeline with one resident handle and a correct tally, used to
instantiate the amended C4 theorem. -/
def tlW4 : Timeline :=
  { volumes := [{ dims := [1, 1, 1, 5], dtype := .uint8, headerRead := true,
                  image := some { shape := [1, 1, 1, 5], dtype := .uint8, zero := false } }],
    memoryUsed := 5, available := true, indicesByCachePriority := [0] }

/-- A three-volume timeline for instantiating C5's determinism clause. -/
def tlW5 : Timeline :=
  { volumes := [{ groupIndex := 0 }, { groupIndex := 0, timeIndex := 1 },
                { groupIndex := 1 }],
    available := true }

/-- A timeline with one resident handle whose access time is 0. -/
def tlC7 : Timeline :=
  { volumes := [{ headerRead := true, dims := [1, 1, 1, 1], accessTime := 0,
                  image := some { shape := [1, 1, 1, 1], dtype := .uint8, zero := false } }],
    available := true }

/-- A TIFF volume whose header promised `[1,2,2,2]` (8 elements) but whose
on-disk payload has only 4 elements. -/
def volC3 : Vol :=
  { path := "v.tif", format := .tiff, headerRead := true,
    dims := [1, 2, 2, 2], dtype := .uint8,
    disk := .ok [1, 2, 2, 1] .uint8 false false }

/-- A prior timeline (one volume) and an all-failing batch for the C8
counterexample. -/
def tlC8 : Timeline :=
  { volumes := [{ dims := [1, 1, 1, 2], dtype := .uint8, headerRead := true }],
    available := true, indicesByCachePriority := [0] }

def srcC8 : Source :=
  { path := "bad.nrrd", format := .nrrd, header := .error "Blank or corrupt file",
    disk := .failRead "x" }

/-- Sources for the C8 witness: three headers, one failing; survivors get
sorted by (group, cycle). -/
def srcW8a : Source :=
  { path := "g1t1.nrrd", format := .nrrd,
    header := .ok { groupIndex := 1, timeIndex := 1, nTimes := 4, period := 1,
                    periodUnit := "sec", timestamp := none, dims := [1, 2, 2, 2],
                    dtype := .uint8, switchEndian := false, transposeZCYX := false },
    disk := .ok [1, 2, 2, 2] .uint8 false false }

def srcW8b : Source :=
  { path := "g0t0.nrrd", format := .nrrd,
    header := .ok { groupIndex := 0, timeIndex := 0, nTimes := 4, period := 1,
                    periodUnit := "sec", timestamp := none, dims := [1, 2, 2, 2],
                    dtype := .uint8, switchEndian := false, transposeZCYX := false },
    disk := .ok [1, 2, 2, 2] .uint8 false false }

/-- A source whose header read fails, and a prior timeline with one
resident volume. -/
def srcW9 : Source :=
  { path := "bad.nrrd", format := .nrrd, header := .error "Blank or corrupt file",
    disk := .failRead "x" }

def tlW9 : Timeline :=
  { volumes := [{ dims := [1, 1, 1, 2], dtype := .uint8, headerRead := true,
                  image := some { shape := [1, 1, 1, 2], dtype := .uint8, zero := false } }],
    memoryUsed := 2, index := 0, available := true, indicesByCachePriority := [0] }

/-- Volumes for the C6 counterexample and witness: group 0 holds one
volume at phase 0; group 1 holds two volumes at phases 1/4 and 3/4 —
both at circular distance 1/4 from phase 0, a tie. -/
def tlC6 : Timeline :=
  { volumes := [{ groupIndex := 0, timeIndex := 0, nTimes := 1 },
                { groupIndex := 1, timeIndex := 1, nTimes := 4 },
                { groupIndex := 1, timeIndex := 3, nTimes := 4 }],
    index := 0, available := true }

/-- Phase layout mirrored for the prev direction: group 0 holds the tied
pair, group 1 holds the phase-0 cursor volume. -/
def tlW6 : Timeline :=
  { volumes := [{ groupIndex := 0, timeIndex := 1, nTimes := 4 },
                { groupIndex := 0, timeIndex := 3, nTimes := 4 },
                { groupIndex := 1, timeIndex := 0, nTimes := 1 }],
    index := 2, available := true }

/-- A sorted two-group timeline with the cursor inside the first group,
instantiating the boundary-navigation theorem. -/
def tlW10 : Timeline :=
  { volumes := [{ groupIndex := 0, timeIndex := 0, nTimes := 2 },
                { groupIndex := 0, timeIndex := 1, nTimes := 2 },
                { groupIndex := 1, timeIndex := 0, nTimes := 2 }],
    index := 1, available := true }

/-! ### Basic lemmas about `Vol` operations -/

theorem Vol.unload_image (v : Vol) : v.unload.image = none := rfl

theorem Vol.unload_unload (v : Vol) : v.unload.unload = v.unload := rfl

theorem Vol.unload_estimate (v : Vol) :
    v.unload.estimate_memory = v.estimate_memory := rfl

theorem Vol.unload_accessTime (v : Vol) : v.unload.accessTime = v.accessTime := rfl

theorem Vol.unload_groupIndex (v : Vol) : v.unload.groupIndex = v.groupIndex := rfl

/-- Fields other than `image`/`hasVtk` are untouched by `_fail_load`. -/
theorem Vol.fail_load_meta (v : Vol) (m : String) :
    (v._fail_load m).1.accessTime = v.accessTime ∧
    (v._fail_load m).1.dims = v.dims ∧
    (v._fail_load m).1.dtype = v.dtype ∧
    (v._fail_load m).1.groupIndex = v.groupIndex ∧
    (v._fail_load m).1.image.isSome := ⟨rfl, rfl, rfl, rfl, rfl⟩

/-- load_tiff stores an image in every path and touches only
`image`/`hasVtk`. -/
theorem Vol.load_tiff_meta (v : Vol) :
    (v.load_tiff).1.accessTime = v.accessTime ∧
    (v.load_tiff).1.dims = v.dims ∧
    (v.load_tiff).1.dtype = v.dtype ∧
    (v.load_tiff).1.groupIndex = v.groupIndex ∧
    (v.load_tiff).1.image.isSome := by
  unfold Vol.load_tiff Vol._fail_load Vol.set_img
  rcases v.disk with msg | ⟨sh, dt, z, hc⟩
  · exact ⟨rfl, rfl, rfl, rfl, rfl⟩
  · dsimp only
    split <;> split <;> split <;> split <;> exact ⟨rfl, rfl, rfl, rfl, rfl⟩

/-- load_nrrd stores an image in every path and touches only
`image`/`hasVtk`. -/
theorem Vol.load_nrrd_meta (v : Vol) :
    (v.load_nrrd).1.accessTime = v.accessTime ∧
    (v.load_nrrd).1.dims = v.dims ∧
    (v.load_nrrd).1.dtype = v.dtype ∧
    (v.load_nrrd).1.groupIndex = v.groupIndex ∧
    (v.load_nrrd).1.image.isSome := by
  unfold Vol.load_nrrd Vol._fail_load Vol.set_img
  rcases v.disk with msg | ⟨sh, dt, z, hc⟩
  · exact ⟨rfl, rfl, rfl, rfl, rfl⟩
  · dsimp only
    split
    · exact ⟨rfl, rfl, rfl, rfl, rfl⟩
    · split <;> exact ⟨rfl, rfl, rfl, rfl, rfl⟩

/-- Every code path of `load` leaves `self.image` set (success paths
store the decoded buffer, failure paths the placeholder), and the
metadata fields read by `estimate_memory`, the access timestamp and the
group index are unchanged. -/
theorem Vol.load_meta (v : Vol) :
    (v.load).1.accessTime = v.accessTime ∧
    (v.load).1.dims = v.dims ∧
    (v.load).1.dtype = v.dtype ∧
    (v.load).1.groupIndex = v.groupIndex ∧
    (v.load).1.image.isSome := by
  unfold Vol.load
  split
  · next h =>
    refine ⟨rfl, rfl, rfl, rfl, ?_⟩
    simpa [Vol.is_loaded] using h
  · rcases v.format with _ | _ | _
    · exact v.fail_load_meta "File format unrecognized or not supported."
    · exact v.load_nrrd_meta
    · exact v.load_tiff_meta

theorem Vol.load_isSome (v : Vol) : (v.load).1.image.isSome :=
  (v.load_meta).2.2.2.2

theorem Vol.load_estimate (v : Vol) :
    (v.load).1.estimate_memory = v.estimate_memory := by
  unfold Vol.estimate_memory
  rw [(v.load_meta).2.1, (v.load_meta).2.2.1]

theorem Vol.load_accessTime (v : Vol) : (v.load).1.accessTime = v.accessTime :=
  (v.load_meta).1

theorem Vol.load_groupIndex (v : Vol) : (v.load).1.groupIndex = v.groupIndex :=
  (v.load_meta).2.2.2.1

theorem Vol.load_of_loaded {v : Vol} (h : v.is_loaded) : v.load = (v, none) := by
  unfold Vol.load
  simp [h]

/-! ### Lemmas about `gv`, `List.set` and `memSum` -/

theorem gv_set_self {vols : List Vol} {i : Nat} (x : Vol) (h : i < vols.length) :
    gv (vols.set i x) i = x := by
  simp [gv, List.getD_eq_getElem?_getD, List.getElem?_set_self h]

theorem gv_set_ne {vols : List Vol} {i j : Nat} (x : Vol) (h : i ≠ j) :
    gv (vols.set i x) j = gv vols j := by
  simp [gv, List.getD_eq_getElem?_getD, List.getElem?_set_ne h]

theorem memSum_set {vols : List Vol} {c : Nat} (x : Vol) (h : c < vols.length) :
    memSum (vols.set c x) = memSum vols - memTerm (gv vols c) + memTerm x := by
  unfold memSum
  rw [List.length_set]
  have hc : c ∈ Finset.range vols.length := Finset.mem_range.mpr h
  rw [← Finset.sum_erase_add _ (fun i => memTerm (gv (vols.set c x) i)) hc,
      ← Finset.sum_erase_add _ (fun i => memTerm (gv vols i)) hc]
  have hcong : ∀ i ∈ (Finset.range vols.length).erase c,
      memTerm (gv (vols.set c x) i) = memTerm (gv vols i) := by
    intro i hi
    rw [gv_set_ne x (Ne.symm (Finset.ne_of_mem_erase hi))]
  rw [Finset.sum_congr rfl hcong, gv_set_self x h]
  ring

theorem memTerm_of_not_loaded {v : Vol} (h : v.image = none) : memTerm v = 0 := by
  simp [memTerm, Vol.is_loaded, h]

theorem memSum_all_unloaded {vols : List Vol}
    (h : ∀ i, i < vols.length → (gv vols i).image = none) : memSum vols = 0 := by
  unfold memSum
  refine Finset.sum_eq_zero ?_
  intro i hi
  exact memTerm_of_not_loaded (h i (Finset.mem_range.mp hi))

/-! ### Lemmas about the eviction loop of `_load_volume` -/

theorem evictLoop_length (target : Int) (cs : List Nat) (vols : List Vol) (mem : Int) :
    (evictLoop target cs vols mem).1.length = vols.length := by
  induction cs generalizing vols mem with
  | nil => rfl
  | cons c rest ih =>
    unfold evictLoop
    split
    · rfl
    · rw [ih, List.length_set]

/-- The eviction loop only ever unloads: each slot of the resulting list
is the original handle or its unloaded version. -/
theorem evictLoop_gv_cases (target : Int) (cs : List Nat) (vols : List Vol)
    (mem : Int) (j : Nat) :
    gv (evictLoop target cs vols mem).1 j = gv vols j ∨
    gv (evictLoop target cs vols mem).1 j = (gv vols j).unload := by
  induction cs generalizing vols mem with
  | nil => exact Or.inl rfl
  | cons c rest ih =>
    unfold evictLoop
    split
    · exact Or.inl rfl
    · rcases eq_or_ne c j with hcj | hcj
      · subst hcj
        by_cases hc : c < vols.length
        · rcases ih (vols.set c (gv vols c).unload) (mem - (gv vols c).estimate_memory) with h | h
          · rw [h, gv_set_self _ hc]
            exact Or.inr rfl
          · rw [h, gv_set_self _ hc, Vol.unload_unload]
            exact Or.inr rfl
        · have hset : vols.set c (gv vols c).unload = vols :=
            List.set_eq_of_length_le (Nat.le_of_not_lt hc)
          rw [hset]
          exact ih vols _
      · rcases ih (vols.set c (gv vols c).unload) (mem - (gv vols c).estimate_memory) with h | h
        · rw [h, gv_set_ne _ hcj]
          exact Or.inl rfl
        · rw [h, gv_set_ne _ hcj]
          exact Or.inr rfl

/-- Slots outside the candidate list are untouched by the eviction loop. -/
theorem evictLoop_gv_not_mem (target : Int) (cs : List Nat) (vols : List Vol)
    (mem : Int) {j : Nat} (hj : j ∉ cs) :
    gv (evictLoop target cs vols mem).1 j = gv vols j := by
  induction cs generalizing vols mem with
  | nil => rfl
  | cons c rest ih =>
    unfold evictLoop
    split
    · rfl
    · have hcj : c ≠ j := fun h => hj (h ▸ List.mem_cons_self c rest)
      rw [ih _ _ (fun h => hj (List.mem_cons_of_mem c h)), gv_set_ne _ hcj]

theorem evictLoop_estimate (target : Int) (cs : List Nat) (vols : List Vol)
    (mem : Int) (j : Nat) :
    (gv (evictLoop target cs vols mem).1 j).estimate_memory =
      (gv vols j).estimate_memory := by
  rcases evictLoop_gv_cases target cs vols mem j with h | h <;> rw [h]
  rw [Vol.unload_estimate]

theorem evictLoop_accessTime (target : Int) (cs : List Nat) (vols : List Vol)
    (mem : Int) (j : Nat) :
    (gv (evictLoop target cs vols mem).1 j).accessTime =
      (gv vols j).accessTime := by
  rcases evictLoop_gv_cases target cs vols mem j with h | h <;> rw [h]
  rw [Vol.unload_accessTime]

theorem evictLoop_loaded_mono (target : Int) (cs : List Nat) (vols : List Vol)
    (mem : Int) {j : Nat}
    (h : (gv (evictLoop target cs vols mem).1 j).is_loaded) :
    (gv vols j).is_loaded := by
  rcases evictLoop_gv_cases target cs vols mem j with hc | hc
  · rwa [hc] at h
  · rw [hc] at h
    simp [Vol.is_loaded, Vol.unload] at h

/-- Progress: the eviction loop stops under budget, or it has unloaded
every candidate. -/
theorem evictLoop_progress (target : Int) (cs : List Nat) (vols : List Vol)
    (mem : Int) :
    (evictLoop target cs vols mem).2 ≤ target ∨
    ∀ c ∈ cs, c < vols.length →
      ¬ (gv (evictLoop target cs vols mem).1 c).is_loaded := by
  induction cs generalizing vols mem with
  | nil => exact Or.inr (fun c hc => absurd hc (List.not_mem_nil c))
  | cons c rest ih =>
    unfold evictLoop
    split
    · exact Or.inl (by assumption)
    · rcases ih (vols.set c (gv vols c).unload) (mem - (gv vols c).estimate_memory)
        with h | h
      · exact Or.inl h
      · refine Or.inr ?_
        intro c' hc' hlt
        rcases List.mem_cons.mp hc' with hec | hmem
        · subst hec
          intro hld
          have := evictLoop_loaded_mono target rest
            (vols.set c' (gv vols c').unload) (mem - (gv vols c').estimate_memory) hld
          rw [gv_set_self _ hlt] at this
          simp [Vol.is_loaded, Vol.unload] at this
        · exact h c' hmem (by rwa [List.length_set])

/-- Accounting: over distinct, in-range, resident candidates, the loop
keeps the difference between the running tally and the true resident sum
unchanged (each step subtracts exactly the unloaded handle's estimate). -/
theorem evictLoop_account (target : Int) (cs : List Nat) (vols : List Vol)
    (mem : Int) (hnd : cs.Nodup)
    (hcs : ∀ c ∈ cs, c < vols.length ∧ (gv vols c).is_loaded) :
    (evictLoop target cs vols mem).2 - memSum (evictLoop target cs vols mem).1 =
      mem - memSum vols := by
  induction cs generalizing vols mem with
  | nil => rfl
  | cons c rest ih =>
    unfold evictLoop
    split
    · rfl
    · obtain ⟨hclt, hcld⟩ := hcs c (List.mem_cons_self c rest)
      have hstep : memSum (vols.set c (gv vols c).unload) =
          memSum vols - (gv vols c).estimate_memory := by
        rw [memSum_set _ hclt, memTerm_of_not_loaded (Vol.unload_image _)]
        unfold memTerm
        rw [if_pos hcld]
        ring
      have hrest : ∀ c' ∈ rest, c' < (vols.set c (gv vols c).unload).length ∧
          (gv (vols.set c (gv vols c).unload) c').is_loaded := by
        intro c' hc'
        have hne : c ≠ c' := fun h => (List.nodup_cons.mp hnd).1 (h ▸ hc')
        obtain ⟨h1, h2⟩ := hcs c' (List.mem_cons_of_mem c hc')
        rw [List.length_set, gv_set_ne _ hne]
        exact ⟨h1, h2⟩
      rw [ih _ _ (List.nodup_cons.mp hnd).2 hrest, hstep]
      ring

/-! ### The eviction candidate list -/

theorem sortedLoadedIdx_mem (vols : List Vol) (c : Nat) :
    c ∈ sortedLoadedIdx vols ↔ c < vols.length ∧ (gv vols c).is_loaded := by
  unfold sortedLoadedIdx
  rw [(List.perm_insertionSort _ _).mem_iff, List.mem_filter, List.mem_range]

theorem sortedLoadedIdx_nodup (vols : List Vol) : (sortedLoadedIdx vols).Nodup := by
  unfold sortedLoadedIdx
  exact ((List.perm_insertionSort _ _).nodup_iff).mpr
    ((List.nodup_range vols.length).filter _)

theorem sortedLoadedIdx_sorted (vols : List Vol) :
    (sortedLoadedIdx vols).Pairwise
      (fun a b => (gv vols a).accessTime ≤ (gv vols b).accessTime) := by
  unfold sortedLoadedIdx
  haveI : IsTotal Nat (fun a b => (gv vols a).accessTime ≤ (gv vols b).accessTime) :=
    ⟨fun a b => le_total _ _⟩
  haveI : IsTrans Nat (fun a b => (gv vols a).accessTime ≤ (gv vols b).accessTime) :=
    ⟨fun a b c hab hbc => le_trans hab hbc⟩
  exact List.sorted_insertionSort _ _

/-! ### Main lemmas about `Timeline._load_volume` -/

namespace Timeline

theorem _load_volume_memoryTarget (tl : Timeline) (i : Nat) :
    (tl._load_volume i).memoryTarget = tl.memoryTarget := by
  unfold Timeline._load_volume
  dsimp only
  split <;> rfl

theorem _load_volume_length (tl : Timeline) (i : Nat) :
    (tl._load_volume i).volumes.length = tl.volumes.length := by
  unfold Timeline._load_volume
  dsimp only
  split
  · rfl
  · dsimp only
    rw [List.length_set, evictLoop_length]

theorem _load_volume_estimate (tl : Timeline) (i j : Nat) :
    (gv (tl._load_volume i).volumes j).estimate_memory =
      (gv tl.volumes j).estimate_memory := by
  unfold Timeline._load_volume
  dsimp only
  split
  · rfl
  · dsimp only
    rcases eq_or_ne i j with hij | hij
    · subst hij
      by_cases hlt : i < (evictLoop tl.memoryTarget (sortedLoadedIdx tl.volumes)
          tl.volumes (tl.memoryUsed + ((gv tl.volumes i).estimate_memory : Int))).1.length
      · rw [gv_set_self _ hlt, Vol.load_estimate]
      · rw [List.set_eq_of_length_le (Nat.le_of_not_lt hlt), evictLoop_estimate]
    · rw [gv_set_ne _ hij, evictLoop_estimate]

theorem _load_volume_accessTime (tl : Timeline) (i j : Nat) :
    (gv (tl._load_volume i).volumes j).accessTime =
      (gv tl.volumes j).accessTime := by
  unfold Timeline._load_volume
  dsimp only
  split
  · rfl
  · dsimp only
    rcases eq_or_ne i j with hij | hij
    · subst hij
      by_cases hlt : i < (evictLoop tl.memoryTarget (sortedLoadedIdx tl.volumes)
          tl.volumes (tl.memoryUsed + ((gv tl.volumes i).estimate_memory : Int))).1.length
      · rw [gv_set_self _ hlt, Vol.load_accessTime]
      · rw [List.set_eq_of_length_le (Nat.le_of_not_lt hlt), evictLoop_accessTime]
    · rw [gv_set_ne _ hij, evictLoop_accessTime]

/-- Core effect of `_load_volume` on a not-yet-resident handle: the
accounting invariant is maintained, the request is satisfied, and the
budget is respected unless the requested handle alone exceeds it, in
which case every other handle has been evicted. -/
theorem _load_volume_spec (tl : Timeline) (i : Nat)
    (hacc : memAccount tl) (hi : i < tl.volumes.length)
    (hnl : ¬ (gv tl.volumes i).is_loaded) :
    memAccount (tl._load_volume i) ∧
    (gv (tl._load_volume i).volumes i).is_loaded ∧
    ((tl._load_volume i).memoryUsed ≤ tl.memoryTarget ∨
      (((gv tl.volumes i).estimate_memory : Int) > tl.memoryTarget ∧
       ∀ j, j < tl.volumes.length → j ≠ i →
         ¬ (gv (tl._load_volume i).volumes j).is_loaded)) := by
  have hloadeq : tl._load_volume i =
      { tl with
          volumes := (evictLoop tl.memoryTarget (sortedLoadedIdx tl.volumes)
            tl.volumes (tl.memoryUsed + ((gv tl.volumes i).estimate_memory : Int))).1.set
              i (gv tl.volumes i).load.1,
          memoryUsed := (evictLoop tl.memoryTarget (sortedLoadedIdx tl.volumes)
            tl.volumes (tl.memoryUsed + ((gv tl.volumes i).estimate_memory : Int))).2 } := by
    unfold Timeline._load_volume
    dsimp only
    rw [if_neg hnl]
  set E := evictLoop tl.memoryTarget (sortedLoadedIdx tl.volumes)
    tl.volumes (tl.memoryUsed + ((gv tl.volumes i).estimate_memory : Int)) with hE
  have hlenE : E.1.length = tl.volumes.length := evictLoop_length _ _ _ _
  have hiE : i < E.1.length := hlenE ▸ hi
  have hnotc : i ∉ sortedLoadedIdx tl.volumes := by
    intro hmem
    exact hnl ((sortedLoadedIdx_mem tl.volumes i).mp hmem).2
  have hgvEi : gv E.1 i = gv tl.volumes i :=
    evictLoop_gv_not_mem _ _ _ _ hnotc
  have hcs : ∀ c ∈ sortedLoadedIdx tl.volumes,
      c < tl.volumes.length ∧ (gv tl.volumes c).is_loaded :=
    fun c hc => (sortedLoadedIdx_mem tl.volumes c).mp hc
  have haccE : E.2 - memSum E.1 = ((gv tl.volumes i).estimate_memory : Int) := by
    rw [evictLoop_account _ _ _ _ (sortedLoadedIdx_nodup tl.volumes) hcs]
    unfold memAccount at hacc
    omega
  have hterm0 : memTerm (gv E.1 i) = 0 := by
    rw [hgvEi]
    unfold memTerm
    rw [if_neg hnl]
  have htermL : memTerm (gv tl.volumes i).load.1 =
      ((gv tl.volumes i).estimate_memory : Int) := by
    unfold memTerm
    rw [if_pos, Vol.load_estimate]
    exact Vol.load_isSome _
  have hmemfinal : memSum (E.1.set i (gv tl.volumes i).load.1) =
      memSum E.1 + ((gv tl.volumes i).estimate_memory : Int) := by
    rw [memSum_set _ hiE, hterm0, htermL]
    ring
  refine ⟨?_, ?_, ?_⟩
  · unfold memAccount
    rw [hloadeq]
    dsimp only
    rw [hmemfinal]
    omega
  · rw [hloadeq]
    dsimp only
    rw [gv_set_self _ hiE]
    exact Vol.load_isSome _
  · rcases evictLoop_progress tl.memoryTarget (sortedLoadedIdx tl.volumes)
      tl.volumes (tl.memoryUsed + ((gv tl.volumes i).estimate_memory : Int)) with hp | hall
    · left
      rw [hloadeq]
      exact hp
    · have hnone : ∀ j, j < tl.volumes.length → ¬ (gv E.1 j).is_loaded := by
        intro j hj hld
        have hldt : (gv tl.volumes j).is_loaded := evictLoop_loaded_mono _ _ _ _ hld
        have hjc : j ∈ sortedLoadedIdx tl.volumes :=
          (sortedLoadedIdx_mem tl.volumes j).mpr ⟨hj, hldt⟩
        exact hall j hjc hj hld
      have hsum0 : memSum E.1 = 0 := by
        refine memSum_all_unloaded ?_
        intro j hj
        have := hnone j (hlenE ▸ hj)
        simpa [Vol.is_loaded, Option.not_isSome_iff_eq_none] using this
      have hE2 : E.2 = ((gv tl.volumes i).estimate_memory : Int) := by omega
      by_cases hbig : ((gv tl.volumes i).estimate_memory : Int) ≤ tl.memoryTarget
      · left
        rw [hloadeq]
        dsimp only
        omega
      · right
        refine ⟨by omega, ?_⟩
        intro j hj hji hld
        rw [hloadeq] at hld
        dsimp only at hld
        rw [gv_set_ne _ (Ne.symm hji)] at hld
        exact hnone j hj hld

/-- One `_load_volume` call preserves the invariant and establishes the
claim's per-call postcondition. -/
theorem _load_volume_pre (tl : Timeline) (i : Nat)
    (hacc : memAccount tl) (hbud : budgetOk tl) (hi : i < tl.volumes.length) :
    (memAccount (tl._load_volume i) ∧ budgetOk (tl._load_volume i)) ∧
    (gv (tl._load_volume i).volumes i).is_loaded ∧
    ((tl._load_volume i).memoryUsed ≤ tl.memoryTarget ∨
      (((gv tl.volumes i).estimate_memory : Int) > tl.memoryTarget ∧
       ∀ j, j < tl.volumes.length → j ≠ i →
         ¬ (gv (tl._load_volume i).volumes j).is_loaded)) := by
  by_cases hld : (gv tl.volumes i).is_loaded
  · have heq : tl._load_volume i = tl := by
      unfold Timeline._load_volume
      dsimp only
      rw [if_pos hld]
    rw [heq]
    refine ⟨⟨hacc, hbud⟩, hld, ?_⟩
    rcases hbud with h | ⟨r, hr, hrld, hronly, hrbig⟩ | hnone
    · exact Or.inl h
    · have hir : i = r := by
        by_contra hne
        exact hronly i hi hne hld
      subst hir
      exact Or.inr ⟨hrbig, hronly⟩
    · exact absurd hld (hnone i hi)
  · obtain ⟨hacc', hld', hpost⟩ := tl._load_volume_spec i hacc hi hld
    refine ⟨⟨hacc', ?_⟩, hld', hpost⟩
    rcases hpost with h | ⟨hbig, honly⟩
    · exact Or.inl (by rw [_load_volume_memoryTarget]; exact h)
    · refine Or.inr (Or.inl ⟨i, ?_, hld', ?_, ?_⟩)
      · rw [_load_volume_length]
        exact hi
      · intro j hj hji
        exact honly j (by rwa [_load_volume_length] at hj) hji
      · rw [_load_volume_estimate, _load_volume_memoryTarget]
        exact hbig

/-- Folding a request sequence preserves the invariants, the list length,
the memory target and every handle's estimate. -/
theorem foldl_load_inv (rs : List Nat) (tl : Timeline)
    (hacc : memAccount tl) (hbud : budgetOk tl)
    (hrs : ∀ x ∈ rs, x < tl.volumes.length) :
    memAccount (List.foldl Timeline._load_volume tl rs) ∧
    budgetOk (List.foldl Timeline._load_volume tl rs) ∧
    (List.foldl Timeline._load_volume tl rs).volumes.length = tl.volumes.length ∧
    (List.foldl Timeline._load_volume tl rs).memoryTarget = tl.memoryTarget ∧
    (∀ j, (gv (List.foldl Timeline._load_volume tl rs).volumes j).estimate_memory =
      (gv tl.volumes j).estimate_memory) := by
  induction rs generalizing tl with
  | nil => exact ⟨hacc, hbud, rfl, rfl, fun j => rfl⟩
  | cons x rest ih =>
    have hx : x < tl.volumes.length := hrs x (List.mem_cons_self x rest)
    obtain ⟨⟨hacc1, hbud1⟩, _, _⟩ := tl._load_volume_pre x hacc hbud hx
    have hrest : ∀ y ∈ rest, y < (tl._load_volume x).volumes.length := by
      intro y hy
      rw [_load_volume_length]
      exact hrs y (List.mem_cons_of_mem x hy)
    obtain ⟨h1, h2, h3, h4, h5⟩ := ih (tl._load_volume x) hacc1 hbud1 hrest
    refine ⟨h1, h2, ?_, ?_, ?_⟩
    · rw [List.foldl_cons, h3, _load_volume_length]
    · rw [List.foldl_cons, h4, _load_volume_memoryTarget]
    · intro j
      rw [List.foldl_cons, h5 j, _load_volume_estimate]

end Timeline

theorem evictLoop_stop {target mem : Int} (cs : List Nat) (vols : List Vol)
    (h : mem ≤ target) : evictLoop target cs vols mem = (vols, mem) := by
  cases cs with
  | nil => rfl
  | cons c rest =>
    unfold evictLoop
    rw [if_pos h]

/-! ### Claim C1 -/

/-- C1 (confirmed): for every sequence of loading `get`/`_load_volume`
calls on a freshly populated timeline with a fixed `memory_target`,
after each call the requested handle is resident (the request is never
rejected) and `memory_used <= memory_target`, unless the estimated cost
of the single most-recently-requested handle alone exceeds the budget,
in which case every other resident handle has been evicted.  ("After
each call" is captured by quantifying over every request sequence
`rs ++ [r]`.) -/
theorem c1_budget_respected_under_load (tl0 : Timeline) (rs : List Nat) (r : Nat)
    (hfresh : ∀ i, i < tl0.volumes.length → (gv tl0.volumes i).image = none)
    (hmem0 : tl0.memoryUsed = 0)
    (hrs : ∀ x ∈ rs, x < tl0.volumes.length)
    (hr : r < tl0.volumes.length) :
    (gv (List.foldl Timeline._load_volume tl0 (rs ++ [r])).volumes r).is_loaded ∧
    ((List.foldl Timeline._load_volume tl0 (rs ++ [r])).memoryUsed ≤ tl0.memoryTarget ∨
      (((gv tl0.volumes r).estimate_memory : Int) > tl0.memoryTarget ∧
       ∀ j, j < tl0.volumes.length → j ≠ r →
         ¬ (gv (List.foldl Timeline._load_volume tl0 (rs ++ [r])).volumes j).is_loaded)) := by
  have hacc0 : memAccount tl0 := by
    unfold memAccount
    rw [hmem0, memSum_all_unloaded hfresh]
  have hbud0 : Timeline.budgetOk tl0 := by
    refine Or.inr (Or.inr ?_)
    intro j hj hld
    rw [Vol.is_loaded, hfresh j hj] at hld
    simp at hld
  obtain ⟨hacc, hbud, hlen, htgt, hest⟩ :=
    Timeline.foldl_load_inv rs tl0 hacc0 hbud0 hrs
  have hfold : List.foldl Timeline._load_volume tl0 (rs ++ [r]) =
      (List.foldl Timeline._load_volume tl0 rs)._load_volume r := by
    rw [List.foldl_append, List.foldl_cons, List.foldl_nil]
  have hr' : r < (List.foldl Timeline._load_volume tl0 rs).volumes.length := by
    rw [hlen]
    exact hr
  obtain ⟨_, hld, hpost⟩ :=
    (List.foldl Timeline._load_volume tl0 rs)._load_volume_pre r hacc hbud hr'
  rw [hfold]
  refine ⟨hld, ?_⟩
  rcases hpost with h | ⟨hbig, honly⟩
  · exact Or.inl (by rw [← htgt]; exact h)
  · refine Or.inr ⟨?_, ?_⟩
    · rw [← hest r, ← htgt]
      exact hbig
    · intro j hj hjr
      exact honly j (by rwa [hlen]) hjr

/-! ### Claim C2 -/

/-- C2 (confirmed): when `_load_volume` must evict and the resident
handles have distinct access times, the evicted handle is the strict-LRU
choice: the resident handle with the smallest `last_access_time` (the
requested handle, being non-resident, is never a candidate and ends up
loaded); with exactly one eviction needed, everything else is untouched. -/
theorem c2_lru_eviction (tl : Timeline) (r m : Nat)
    (hr : r < tl.volumes.length)
    (hrnl : (gv tl.volumes r).image = none)
    (hm : m < tl.volumes.length)
    (hmld : (gv tl.volumes m).is_loaded)
    (hdistinct : ∀ i, i < tl.volumes.length → ∀ j, j < tl.volumes.length →
      (gv tl.volumes i).is_loaded → (gv tl.volumes j).is_loaded → i ≠ j →
      (gv tl.volumes i).accessTime ≠ (gv tl.volumes j).accessTime)
    (hmin : ∀ j, j < tl.volumes.length → (gv tl.volumes j).is_loaded →
      (gv tl.volumes m).accessTime ≤ (gv tl.volumes j).accessTime)
    (hover : tl.memoryTarget <
      tl.memoryUsed + ((gv tl.volumes r).estimate_memory : Int))
    (hone : tl.memoryUsed + ((gv tl.volumes r).estimate_memory : Int)
      - ((gv tl.volumes m).estimate_memory : Int) ≤ tl.memoryTarget) :
    (gv (tl._load_volume r).volumes m).image = none ∧
    (gv (tl._load_volume r).volumes r).is_loaded ∧
    (∀ j, j ≠ m → j ≠ r → gv (tl._load_volume r).volumes j = gv tl.volumes j) := by
  have hrnl' : ¬ (gv tl.volumes r).is_loaded = true := by
    rw [Vol.is_loaded, hrnl]
    simp
  have hmr : m ≠ r := by
    intro h
    rw [h] at hmld
    exact hrnl' hmld
  have hmmem : m ∈ sortedLoadedIdx tl.volumes :=
    (sortedLoadedIdx_mem tl.volumes m).mpr ⟨hm, hmld⟩
  obtain ⟨c, rest, hcons⟩ := List.exists_cons_of_ne_nil
    (List.ne_nil_of_mem hmmem)
  have hcmem : c ∈ sortedLoadedIdx tl.volumes := by
    rw [hcons]
    exact List.mem_cons_self c rest
  obtain ⟨hclt, hcld⟩ := (sortedLoadedIdx_mem tl.volumes c).mp hcmem
  have hcm : c = m := by
    have hpair := sortedLoadedIdx_sorted tl.volumes
    rw [hcons] at hpair
    have hle : ∀ x ∈ rest, (gv tl.volumes c).accessTime ≤ (gv tl.volumes x).accessTime :=
      (List.pairwise_cons.mp hpair).1
    rcases List.mem_cons.mp (hcons ▸ hmmem) with h | h
    · exact h.symm
    · by_contra hne
      exact hdistinct c hclt m hm hcld hmld hne
        (le_antisymm (hle m h) (hmin c hclt hcld))
  rw [hcm] at hcons
  have hEeq : evictLoop tl.memoryTarget (sortedLoadedIdx tl.volumes) tl.volumes
      (tl.memoryUsed + ((gv tl.volumes r).estimate_memory : Int)) =
      (tl.volumes.set m (gv tl.volumes m).unload,
       tl.memoryUsed + ((gv tl.volumes r).estimate_memory : Int)
         - ((gv tl.volumes m).estimate_memory : Int)) := by
    rw [hcons]
    unfold evictLoop
    rw [if_neg (not_le.mpr hover)]
    exact evictLoop_stop rest _ hone
  have hloadeq : tl._load_volume r =
      { tl with
          volumes := (tl.volumes.set m (gv tl.volumes m).unload).set r
            (gv tl.volumes r).load.1,
          memoryUsed := tl.memoryUsed + ((gv tl.volumes r).estimate_memory : Int)
            - ((gv tl.volumes m).estimate_memory : Int) } := by
    unfold Timeline._load_volume
    dsimp only
    rw [if_neg hrnl', hEeq]
  rw [hloadeq]
  dsimp only
  refine ⟨?_, ?_, ?_⟩
  · rw [gv_set_ne _ (Ne.symm hmr)]
    rw [gv_set_self _ hm]
    rfl
  · rw [gv_set_self _ (by rw [List.length_set]; exact hr)]
    exact Vol.load_isSome _
  · intro j hjm hjr
    rw [gv_set_ne _ (Ne.symm hjr), gv_set_ne _ (Ne.symm hjm)]

/-! ### Accounting lemmas for the remaining operations -/

theorem gv_mem {vols : List Vol} {i : Nat} (h : i < vols.length) :
    gv vols i ∈ vols := by
  rw [gv, List.getD_eq_getElem?_getD, List.getElem?_eq_getElem h]
  exact List.getElem_mem h

theorem Timeline._load_volume_account (tl : Timeline) (i : Nat)
    (hacc : memAccount tl) (hi : i < tl.volumes.length) :
    memAccount (tl._load_volume i) := by
  by_cases hld : (gv tl.volumes i).is_loaded
  · have heq : tl._load_volume i = tl := by
      unfold Timeline._load_volume
      dsimp only
      rw [if_pos hld]
    rw [heq]
    exact hacc
  · exact (tl._load_volume_spec i hacc hi hld).1

theorem Timeline.unload_volume_account (tl : Timeline) (i : Nat)
    (hacc : memAccount tl) (hi : i < tl.volumes.length)
    (hld : (gv tl.volumes i).is_loaded) :
    memAccount (tl.unload_volume i) := by
  unfold memAccount Timeline.unload_volume
  dsimp only
  rw [memSum_set _ hi, memTerm_of_not_loaded (Vol.unload_image _),
      Vol.unload_estimate]
  have hterm : memTerm (gv tl.volumes i) = ((gv tl.volumes i).estimate_memory : Int) := by
    unfold memTerm
    rw [if_pos hld]
  unfold memAccount at hacc
  omega

theorem Timeline.first_unloaded_spec (vols : List Vol) (l : List Nat) (i : Nat)
    (h : Timeline.first_unloaded vols l = some i) :
    i ∈ l ∧ ¬ (gv vols i).is_loaded := by
  induction l with
  | nil => exact absurd h (by simp [Timeline.first_unloaded])
  | cons c rest ih =>
    unfold Timeline.first_unloaded at h
    split at h
    · obtain ⟨h1, h2⟩ := ih h
      exact ⟨List.mem_cons_of_mem c h1, h2⟩
    · next hnl =>
      obtain rfl : c = i := by injection h
      exact ⟨List.mem_cons_self c rest, hnl⟩

theorem Timeline.run_cache_step_account (tl : Timeline)
    (hacc : memAccount tl)
    (hpri : ∀ i ∈ tl.indicesByCachePriority, i < tl.volumes.length) :
    memAccount tl.run_cache_step := by
  unfold Timeline.run_cache_step
  split
  · exact hacc
  · split
    · exact hacc
    · cases hfu : Timeline.first_unloaded tl.volumes tl.indicesByCachePriority with
      | none =>
        exact hacc
      | some i =>
        obtain ⟨hmem_i, hnl⟩ := Timeline.first_unloaded_spec _ _ _ hfu
        have hi : i < tl.volumes.length := hpri i hmem_i
        unfold memAccount
        dsimp only
        rw [memSum_set _ hi, memTerm_of_not_loaded ?hnone]
        case hnone =>
          rw [← Option.not_isSome_iff_eq_none]
          exact hnl
        have htermL : memTerm (gv tl.volumes i).load.1 =
            (((gv tl.volumes i).load.1.estimate_memory : Nat) : Int) := by
          unfold memTerm Vol.is_loaded
          rw [if_pos (Vol.load_isSome _)]
        unfold memAccount at hacc
        omega

theorem mkVolume_image (s : Source) : (mkVolume s).image = none := rfl

theorem Vol.read_header_image (v : Vol) : (v.read_header).1.image = v.image := by
  unfold Vol.read_header
  rcases v.format with _ | _ | _ <;> [rfl; skip; skip] <;>
    rcases v.headerSrc with _ | _ <;> rfl

theorem read_headers_loop_image (cb : Nat → Bool) (l : List Vol) (i : Nat)
    (h : ∀ v ∈ l, v.image = none) :
    ∀ w ∈ (read_headers_loop cb l i).1, w.image = none := by
  induction l generalizing i with
  | nil => intro w hw; exact absurd hw (by simp [read_headers_loop])
  | cons v rest ih =>
    intro w hw
    unfold read_headers_loop at hw
    dsimp only at hw
    have hv : (v.read_header).1.image = none := by
      rw [Vol.read_header_image]
      exact h v (List.mem_cons_self v rest)
    split at hw
    · rcases List.mem_singleton.mp hw with rfl
      exact hv
    · rcases List.mem_cons.mp hw with rfl | hw'
      · exact hv
      · exact ih (i + 1) (fun u hu => h u (List.mem_cons_of_mem v hu)) w hw'

theorem label_loop_image (g : Option Nat) (ts : ℚ) (i n : Nat) (l : List Vol)
    (h : ∀ v ∈ l, v.image = none) :
    ∀ w ∈ label_loop g ts i n l, w.image = none := by
  induction l generalizing g ts i with
  | nil => intro w hw; exact absurd hw (by simp [label_loop])
  | cons v rest ih =>
    intro w hw
    unfold label_loop at hw
    dsimp only at hw
    rcases List.mem_cons.mp hw with rfl | hw'
    · exact h v (List.mem_cons_self v rest)
    · exact ih _ _ _ (fun u hu => h u (List.mem_cons_of_mem v hu)) w hw'

theorem Timeline.set_file_paths_account (tl : Timeline)
    (hacc : memAccount tl) (sources : List Source) (cb : Nat → Bool) :
    memAccount (tl.set_file_paths sources cb).1 := by
  unfold Timeline.set_file_paths
  dsimp only
  split
  · unfold memAccount
    dsimp only
    rw [memSum_all_unloaded]
    intro i hi
    refine label_loop_image _ _ _ _ _ ?_ _ (gv_mem hi)
    intro v hv
    have hv' := (List.perm_insertionSort sortLE _).subset hv
    have hv'' := List.mem_filter.mp hv'
    exact read_headers_loop_image cb _ 0
      (fun u hu => by
        obtain ⟨s, _, rfl⟩ := List.mem_map.mp hu
        rfl) v hv''.1
  · exact hacc

theorem c1_budget_respected_witness :
    (∀ i, i < tlW1.volumes.length → (gv tlW1.volumes i).image = none) ∧
    tlW1.memoryUsed = 0 ∧
    (∀ x ∈ ([0] : List Nat), x < tlW1.volumes.length) ∧
    1 < tlW1.volumes.length ∧
    ((gv (List.foldl Timeline._load_volume tlW1 ([0] ++ [1])).volumes 1).is_loaded ∧
     ((List.foldl Timeline._load_volume tlW1 ([0] ++ [1])).memoryUsed ≤ tlW1.memoryTarget ∨
       (((gv tlW1.volumes 1).estimate_memory : Int) > tlW1.memoryTarget ∧
        ∀ j, j < tlW1.volumes.length → j ≠ 1 →
          ¬ (gv (List.foldl Timeline._load_volume tlW1 ([0] ++ [1])).volumes j).is_loaded))) :=
  ⟨by decide, by decide, by decide, by decide,
   c1_budget_respected_under_load tlW1 [0] 1 (by decide) (by decide) (by decide) (by decide)⟩

theorem c2_lru_eviction_witness :
    (2 < tlW2.volumes.length ∧ (gv tlW2.volumes 2).image = none ∧
     0 < tlW2.volumes.length ∧ (gv tlW2.volumes 0).is_loaded ∧
     (∀ i, i < tlW2.volumes.length → ∀ j, j < tlW2.volumes.length →
       (gv tlW2.volumes i).is_loaded → (gv tlW2.volumes j).is_loaded → i ≠ j →
       (gv tlW2.volumes i).accessTime ≠ (gv tlW2.volumes j).accessTime) ∧
     (∀ j, j < tlW2.volumes.length → (gv tlW2.volumes j).is_loaded →
       (gv tlW2.volumes 0).accessTime ≤ (gv tlW2.volumes j).accessTime) ∧
     tlW2.memoryTarget < tlW2.memoryUsed + ((gv tlW2.volumes 2).estimate_memory : Int) ∧
     tlW2.memoryUsed + ((gv tlW2.volumes 2).estimate_memory : Int)
       - ((gv tlW2.volumes 0).estimate_memory : Int) ≤ tlW2.memoryTarget) ∧
    ((gv (tlW2._load_volume 2).volumes 0).image = none ∧
     (gv (tlW2._load_volume 2).volumes 2).is_loaded ∧
     (∀ j, j ≠ 0 → j ≠ 2 → gv (tlW2._load_volume 2).volumes j = gv tlW2.volumes j)) :=
  ⟨⟨by decide, by decide, by decide, by decide,
    by intro i hi j hj hli hlj hne
       replace hi : i < 3 := by simpa [tlW2] using hi
       replace hj : j < 3 := by simpa [tlW2] using hj
       interval_cases i <;> interval_cases j <;> simp_all <;> decide,
    by intro j hj hlj
       replace hj : j < 3 := by simpa [tlW2] using hj
       interval_cases j <;> first | decide | exact absurd hlj (by decide),
    by decide, by decide⟩,
   c2_lru_eviction tlW2 2 0 (by decide) (by decide) (by decide) (by decide)
     (by intro i hi j hj hli hlj hne
         replace hi : i < 3 := by simpa [tlW2] using hi
         replace hj : j < 3 := by simpa [tlW2] using hj
         interval_cases i <;> interval_cases j <;> simp_all <;> decide)
     (by intro j hj hlj
         replace hj : j < 3 := by simpa [tlW2] using hj
         interval_cases j <;> first | decide | exact absurd hlj (by decide))
     (by decide) (by decide)⟩

/-! ### Claim C4 -/

/-- C4 counterexample: the accounting invariant holds on `tlC4`, whose
only handle is not resident, yet `unload_volume 0` breaks it —
`unload_volume` subtracts the estimate unconditionally, so `memory_used`
drops to `-5` while the resident sum stays `0`. -/
theorem c4_unload_nonresident_breaks_accounting :
    memAccount tlC4 ∧
    (gv tlC4.volumes 0).image = none ∧
    ¬ memAccount (tlC4.unload_volume 0) ∧
    (tlC4.unload_volume 0).memoryUsed = -5 ∧
    memSum (tlC4.unload_volume 0).volumes = 0 := by
  refine ⟨?_, rfl, ?_, by decide, by decide⟩ <;> unfold memAccount <;> decide

/-- C4 (corrected): outside a load/unload critical section,
`memory_used = Σ estimate_memory()` over resident handles is preserved by
`_load_volume`, `get`, `set_file_paths`, a background daemon step (with
in-range priority indices, as the daemon's list access enforces), and by
`unload_volume` applied to a *resident* handle; `unload_volume` on a
non-resident handle breaks the equality (see the counterexample). -/
theorem c4_memory_accounting_amended (tl : Timeline) (hacc : memAccount tl) :
    (∀ i, i < tl.volumes.length → memAccount (tl._load_volume i)) ∧
    (∀ i p, i < tl.volumes.length → memAccount (tl.get i p).1) ∧
    (∀ i, i < tl.volumes.length → (gv tl.volumes i).is_loaded →
      memAccount (tl.unload_volume i)) ∧
    (∀ sources cb, memAccount (tl.set_file_paths sources cb).1) ∧
    ((∀ i ∈ tl.indicesByCachePriority, i < tl.volumes.length) →
      memAccount tl.run_cache_step) := by
  refine ⟨?_, ?_, ?_, ?_, ?_⟩
  · intro i hi
    exact tl._load_volume_account i hacc hi
  · intro i p hi
    cases p
    · exact hacc
    · exact tl._load_volume_account i hacc hi
  · intro i hi hld
    exact tl.unload_volume_account i hacc hi hld
  · intro sources cb
    exact tl.set_file_paths_account hacc sources cb
  · intro hpri
    exact tl.run_cache_step_account hacc hpri

theorem c4_memory_accounting_witness :
    memAccount tlW4 ∧
    0 < tlW4.volumes.length ∧ (gv tlW4.volumes 0).is_loaded ∧
    memAccount (tlW4.unload_volume 0) ∧ memAccount tlW4.run_cache_step :=
  ⟨by unfold memAccount; decide, by decide, by decide,
   (c4_memory_accounting_amended tlW4 (by unfold memAccount; decide)).2.2.1 0
     (by decide) (by decide),
   (c4_memory_accounting_amended tlW4 (by unfold memAccount; decide)).2.2.2.2
     (by decide)⟩

/-! ### Claim C5 -/

/-- C5 (confirmed): for a fixed `index` and volume count `n`, the cache
priority order is a permutation of `0..n-1`, sorted descending by the
priority `4/(1+forward) + 1/(1+backward)`, and recomputing it via a
second `seek(index)` yields the same order. -/
theorem c5_priority_order_deterministic (n index : Nat) :
    (Timeline._make_cache_priorities n index).Perm (List.range n) ∧
    List.Pairwise
      (fun a b => Timeline.cache_priority n index b ≤ Timeline.cache_priority n index a)
      (Timeline._make_cache_priorities n index) ∧
    (∀ tl : Timeline, tl.volumes.length = n →
      ((tl.seek index).seek index).indicesByCachePriority =
        Timeline._make_cache_priorities n index ∧
      (tl.seek index).indicesByCachePriority =
        Timeline._make_cache_priorities n index) := by
  refine ⟨List.perm_insertionSort _ _, ?_, ?_⟩
  · haveI : IsTotal Nat
        (fun a b => Timeline.cache_priority n index b ≤ Timeline.cache_priority n index a) :=
      ⟨fun a b => le_total _ _⟩
    haveI : IsTrans Nat
        (fun a b => Timeline.cache_priority n index b ≤ Timeline.cache_priority n index a) :=
      ⟨fun a b c hab hbc => le_trans hbc hab⟩
    exact List.sorted_insertionSort _ _
  · intro tl hn
    subst hn
    exact ⟨rfl, rfl⟩

/-- Instantiation of the determinism clause of C5 (its only hypothesis)
at a concrete timeline. -/
theorem c5_priority_order_witness :
    tlW5.volumes.length = 3 ∧
    ((tlW5.seek 1).seek 1).indicesByCachePriority =
      Timeline._make_cache_priorities 3 1 :=
  ⟨rfl, ((c5_priority_order_deterministic 3 1).2.2 tlW5 rfl).1⟩

/-! ### Claim C7 -/

/-- C7 (amended): `get(index, preload)` returns the handle with its
`last_access_time` unchanged — `get` does not touch; the access time is
updated to the current time only by `vtk_image()`. -/
theorem c7_get_returns_untouched_handle :
    (∀ (tl : Timeline) (i : Nat) (p : Bool),
      ((tl.get i p).2).accessTime = (gv tl.volumes i).accessTime) ∧
    (∀ (v : Vol) (now : ℚ), ((v.vtk_image now).1).accessTime = now) := by
  constructor
  · intro tl i p
    cases p
    · rfl
    · exact Timeline._load_volume_accessTime tl i i
  · intro v now
    exact Vol.load_accessTime { v with accessTime := now }

/-- C7 counterexample: after `get(0, preload=True)` the returned handle's
`last_access_time` is still its old value 0 — `get` never consults the
clock, so the handle has not been "touched" as the claim states. -/
theorem c7_get_does_not_touch_cex :
    ((tlC7.get 0 true).2).accessTime = 0 ∧
    (gv tlC7.volumes 0).accessTime = 0 ∧
    (tlC7.get 0 true).2 = gv tlC7.volumes 0 := by
  refine ⟨by decide, by decide, by decide⟩

/-! ### Claim C3 -/

/-- C3 (code bug): on this payload-read failure (size mismatch) `load`
does substitute the zero-filled placeholder and leaves the handle
resident, but it returns `None` — no error reaches the caller, because
`load_tiff` discards the `FileError` produced by `_fail_load` (a missing
`return` in the source).  The placeholder carries the expected
`self.dims` shape (reshaped to `dims[::-1]` by the tail of `load_tiff`). -/
theorem c3_load_swallows_tiff_mismatch_error :
    ((volC3.disk = .ok [1, 2, 2, 1] .uint8 false false) ∧
     ([1, 2, 2, 1] : List Nat).prod ≠ volC3.dims.prod) ∧
    (volC3.load).2 = none ∧
    (volC3.load).1.image = some { shape := [2, 2, 2, 1], dtype := .uint8, zero := true } ∧
    (volC3.load).1.is_loaded ∧
    (volC3.load).1.load = ((volC3.load).1, none) := by
  exact ⟨⟨by decide, by decide⟩, by decide, by decide, by decide, by decide⟩

/-! ### Lemmas about the `set_file_paths` pipeline -/

theorem Vol.read_header_of_fail {v : Vol} (h : ((v.read_header).2).isSome) :
    (v.read_header).1 = v := by
  revert h
  unfold Vol.read_header
  rcases v.format with _ | _ | _ <;> [skip; skip; skip] <;>
    [ (intro h; rfl); skip; skip ] <;>
    rcases v.headerSrc with _ | _ <;> intro h <;> first | rfl | simp at h

theorem Vol.read_header_headerRead {v : Vol} (h : v.headerRead = false) :
    ((v.read_header).1).headerRead = !((v.read_header).2).isSome := by
  revert h
  unfold Vol.read_header
  rcases v.format with _ | _ | _ <;> [skip; skip; skip] <;>
    [ (intro h; simpa using h); skip; skip ] <;>
    rcases v.headerSrc with _ | _ <;> intro h <;> simp [h]

/-- With a never-cancelling progress callback the header loop processes
every handle in order and collects one error per failing header. -/
theorem read_headers_loop_no_cancel (cb : Nat → Bool) (hcb : ∀ n, cb n = false) :
    ∀ (l : List Vol) (i : Nat),
      (read_headers_loop cb l i).1 = l.map (fun v => (v.read_header).1) ∧
      (read_headers_loop cb l i).2.length =
        l.countP (fun v => ((v.read_header).2).isSome) := by
  intro l
  induction l with
  | nil => intro i; exact ⟨rfl, rfl⟩
  | cons v rest ih =>
    intro i
    unfold read_headers_loop
    dsimp only
    rw [hcb (i + 1)]
    simp only [Bool.false_eq_true, if_false]
    obtain ⟨h1, h2⟩ := ih (i + 1)
    constructor
    · rw [List.map_cons, h1]
    · rw [List.length_append, h2, List.countP_cons]
      cases herr : (v.read_header).2 <;> simp [herr] <;> omega

theorem countP_not_eq (p : α → Bool) (l : List α) :
    l.countP (fun a => !(p a)) = l.length - l.countP p := by
  induction l with
  | nil => rfl
  | cons a rest ih =>
    rw [List.countP_cons, List.countP_cons, ih, List.length_cons]
    have := List.countP_le_length p (l := rest)
    cases hpa : p a <;> simp <;> omega

theorem label_loop_length (g : Option Nat) (ts : ℚ) (i n : Nat) (l : List Vol) :
    (label_loop g ts i n l).length = l.length := by
  induction l generalizing g ts i with
  | nil => rfl
  | cons v rest ih =>
    unfold label_loop
    dsimp only
    rw [List.length_cons, List.length_cons, ih]

/-- Labelling changes only the label string, so each labelled handle keeps
the ordering metadata of a corresponding input handle. -/
theorem label_loop_key (g : Option Nat) (ts : ℚ) (i n : Nat) (l : List Vol) :
    ∀ w ∈ label_loop g ts i n l, ∃ v ∈ l,
      w.groupIndex = v.groupIndex ∧ w.timeIndex = v.timeIndex := by
  induction l generalizing g ts i with
  | nil => intro w hw; exact absurd hw (by simp [label_loop])
  | cons v rest ih =>
    intro w hw
    unfold label_loop at hw
    dsimp only at hw
    rcases List.mem_cons.mp hw with rfl | hw'
    · exact ⟨v, List.mem_cons_self v rest, rfl, rfl⟩
    · obtain ⟨u, hu, h1, h2⟩ := ih _ _ _ w hw'
      exact ⟨u, List.mem_cons_of_mem v hu, h1, h2⟩

theorem label_loop_pairwise (g : Option Nat) (ts : ℚ) (i n : Nat) (l : List Vol)
    (h : List.Pairwise sortLE l) :
    List.Pairwise sortLE (label_loop g ts i n l) := by
  induction l generalizing g ts i with
  | nil => exact List.Pairwise.nil
  | cons v rest ih =>
    obtain ⟨hv, hrest⟩ := List.pairwise_cons.mp h
    unfold label_loop
    dsimp only
    refine List.pairwise_cons.mpr ⟨?_, ih _ _ _ hrest⟩
    intro w hw
    obtain ⟨u, hu, h1, h2⟩ := label_loop_key _ _ _ _ _ w hw
    have := hv u hu
    unfold sortLE at *
    unfold Vol.make_label
    dsimp only
    omega

/-! ### Claim C9 -/

/-- C9 (confirmed): when every source of a (second) `set_file_paths` call
fails its metadata read, the prior timeline state — volume list,
residency, tally, cursor, priority order and availability — is fully
preserved (the whole record is unchanged), and the collected errors (one
per source) are still returned. -/
theorem c9_all_fail_preserves_state (tl : Timeline) (sources : List Source)
    (cb : Nat → Bool) (hne : sources ≠ [])
    (hfail : ∀ s ∈ sources, (((mkVolume s).read_header).2).isSome)
    (hcb : ∀ n, cb n = false) :
    (tl.set_file_paths sources cb).1 = tl ∧
    (tl.set_file_paths sources cb).2.length = sources.length := by
  obtain ⟨hproc, herrs⟩ :=
    read_headers_loop_no_cancel cb hcb (sources.map mkVolume) 0
  have hkept : ((read_headers_loop cb (sources.map mkVolume) 0).1.filter
      (fun v => v.headerRead)) = [] := by
    rw [hproc, List.filter_eq_nil_iff]
    intro w hw
    obtain ⟨v, hv, rfl⟩ := List.mem_map.mp hw
    obtain ⟨s, hs, rfl⟩ := List.mem_map.mp hv
    rw [Vol.read_header_of_fail (hfail s hs)]
    simp [mkVolume]
  constructor
  · unfold Timeline.set_file_paths
    dsimp only
    rw [hkept]
    rfl
  · unfold Timeline.set_file_paths
    dsimp only
    rw [hkept]
    show (read_headers_loop cb (sources.map mkVolume) 0).2.length = sources.length
    rw [herrs, List.countP_map]
    have : ∀ s ∈ sources, ((fun v : Vol => ((v.read_header).2).isSome) ∘ mkVolume) s = true :=
      fun s hs => hfail s hs
    rw [List.countP_eq_length.mpr this]

/-! ### Claim C8 -/

/-- C8 (amended): given sources of which `k` fail their metadata read
(no cancellation) and at least one survives, `set_file_paths` returns
exactly `k` errors and the timeline afterwards holds exactly the
`N - k` surviving handles, sorted ascending by
`(group_index, cycle_index)`, with the timeline made available.  (When
every source fails, the prior volume list is retained instead — see the
counterexample and C9.) -/
theorem c8_metadata_tolerance_amended (tl : Timeline) (sources : List Source)
    (cb : Nat → Bool) (hcb : ∀ n, cb n = false)
    (hsur : sources.countP (fun s => (((mkVolume s).read_header).2).isSome) <
      sources.length) :
    (tl.set_file_paths sources cb).2.length =
      sources.countP (fun s => (((mkVolume s).read_header).2).isSome) ∧
    (tl.set_file_paths sources cb).1.volumes.length =
      sources.length -
        sources.countP (fun s => (((mkVolume s).read_header).2).isSome) ∧
    List.Pairwise sortLE (tl.set_file_paths sources cb).1.volumes ∧
    (tl.set_file_paths sources cb).1.available = true := by
  obtain ⟨hproc, herrs⟩ :=
    read_headers_loop_no_cancel cb hcb (sources.map mkVolume) 0
  have herrs' : (read_headers_loop cb (sources.map mkVolume) 0).2.length =
      sources.countP (fun s => (((mkVolume s).read_header).2).isSome) := by
    rw [herrs, List.countP_map]
    rfl
  have hkeptlen : ((read_headers_loop cb (sources.map mkVolume) 0).1.filter
      (fun v => v.headerRead)).length =
      sources.length -
        sources.countP (fun s => (((mkVolume s).read_header).2).isSome) := by
    rw [hproc, List.map_map, ← List.countP_eq_length_filter, List.countP_map]
    have hcong : ∀ s ∈ sources,
        (((fun v : Vol => v.headerRead) ∘
          ((fun v : Vol => (v.read_header).1) ∘ mkVolume)) s = true ↔
         (fun s : Source => !(((mkVolume s).read_header).2).isSome) s = true) := by
      intro s _
      simp only [Function.comp_apply]
      rw [Vol.read_header_headerRead rfl]
    rw [List.countP_congr hcong, countP_not_eq]
  unfold Timeline.set_file_paths
  dsimp only
  set processed := read_headers_loop cb (sources.map mkVolume) 0 with hP
  set kept := processed.1.filter (fun v => v.headerRead) with hK
  set sortedVols := List.insertionSort sortLE kept with hS
  set labeled := label_loop none 0 0 sortedVols.length sortedVols with hL
  have hslen : sortedVols.length = kept.length :=
    (List.perm_insertionSort sortLE kept).length_eq
  have hllen : labeled.length = kept.length := by
    rw [hL, label_loop_length, hslen]
  have hpos : labeled.length > 0 := by
    rw [hllen, hkeptlen]
    omega
  rw [if_pos hpos]
  refine ⟨herrs', ?_, ?_, rfl⟩
  · rw [hllen]
    exact hkeptlen
  · rw [hL]
    exact label_loop_pairwise _ _ _ _ _ (List.sorted_insertionSort sortLE kept)

/-- C8 counterexample: one source, and it fails (`k = N = 1`); the call
returns 1 error, but the timeline afterwards holds its 1 old handle, not
`N - k = 0` handles — the claim's unqualified "holds exactly the N - k
surviving handles" fails when every source fails on a non-fresh
timeline. -/
theorem c8_all_fail_keeps_old_volumes_cex :
    (tlC8.set_file_paths [srcC8] (fun _ => false)).2.length = 1 ∧
    (tlC8.set_file_paths [srcC8] (fun _ => false)).1.volumes.length = 1 ∧
    (tlC8.set_file_paths [srcC8] (fun _ => false)).1.volumes.length ≠
      [srcC8].length - (tlC8.set_file_paths [srcC8] (fun _ => false)).2.length := by
  refine ⟨by decide, by decide, by decide⟩

theorem c8_metadata_tolerance_witness :
    ([srcW8a, srcC8, srcW8b].countP
        (fun s => (((mkVolume s).read_header).2).isSome) <
      [srcW8a, srcC8, srcW8b].length) ∧
    (({} : Timeline).set_file_paths [srcW8a, srcC8, srcW8b] (fun _ => false)).2.length =
      [srcW8a, srcC8, srcW8b].countP
        (fun s => (((mkVolume s).read_header).2).isSome) ∧
    (({} : Timeline).set_file_paths [srcW8a, srcC8, srcW8b] (fun _ => false)).1.volumes.length =
      [srcW8a, srcC8, srcW8b].length -
        [srcW8a, srcC8, srcW8b].countP
          (fun s => (((mkVolume s).read_header).2).isSome) ∧
    List.Pairwise sortLE
      (({} : Timeline).set_file_paths [srcW8a, srcC8, srcW8b] (fun _ => false)).1.volumes :=
  ⟨by decide,
   (c8_metadata_tolerance_amended {} [srcW8a, srcC8, srcW8b] (fun _ => false)
     (fun _ => rfl) (by decide)).1,
   (c8_metadata_tolerance_amended {} [srcW8a, srcC8, srcW8b] (fun _ => false)
     (fun _ => rfl) (by decide)).2.1,
   (c8_metadata_tolerance_amended {} [srcW8a, srcC8, srcW8b] (fun _ => false)
     (fun _ => rfl) (by decide)).2.2.1⟩

/-! ### Group navigation: walk lemmas -/

theorem gv_eq_get {vols : List Vol} {k : Nat} (h : k < vols.length) :
    gv vols k = vols[k] := by
  simp [gv, List.getD_eq_getElem?_getD, List.getElem?_eq_getElem h]

/-- Monotonicity of group indices along a (group, cycle)-sorted list. -/
theorem group_mono {vols : List Vol}
    (hs : List.Pairwise (fun u v : Vol => u.groupIndex ≤ v.groupIndex) vols)
    {i j : Nat} (hi : i < vols.length) (hj : j < vols.length) (hij : i ≤ j) :
    (gv vols i).groupIndex ≤ (gv vols j).groupIndex := by
  rcases Nat.lt_or_ge i j with hlt | hge
  · rw [gv_eq_get hi, gv_eq_get hj]
    exact List.pairwise_iff_getElem.mp hs i j hi hj hlt
  · obtain rfl : i = j := Nat.le_antisymm hij hge
    exact le_rfl

theorem walkDown_const (vols : List Vol) (g : Nat) :
    ∀ i, (∀ k, k ≤ i → (gv vols k).groupIndex = g) → walkDown vols g i = 0 := by
  intro i
  induction i with
  | zero => intro _; rfl
  | succ n ih =>
    intro h
    unfold walkDown
    rw [if_pos (h (n + 1) le_rfl)]
    exact ih (fun k hk => h k (Nat.le_succ_of_le hk))

theorem walkUp_const (vols : List Vol) (g : Nat) :
    ∀ f i, (∀ k, i ≤ k → k ≤ i + f → (gv vols k).groupIndex = g) →
      walkUp vols g f i = i + f := by
  intro f
  induction f with
  | zero => intro i _; rfl
  | succ n ih =>
    intro i h
    unfold walkUp
    rw [if_pos (h i le_rfl (Nat.le_add_right i (n + 1)))]
    rw [ih (i + 1) (fun k hk1 hk2 => h k (Nat.le_of_succ_le hk1) (by omega))]
    omega

/-! ### Scan-loop characterization for the group-navigation queries -/

theorem qabs_eq_abs (x : ℚ) : qabs x = |x| := by
  unfold qabs
  split
  · next h => exact (abs_of_neg h).symm
  · next h => exact (abs_of_nonneg (not_lt.mp h)).symm

theorem circDiff_le_one (a b : ℚ) : circDiff a b ≤ 1 := by
  unfold circDiff
  dsimp only
  rw [qabs_eq_abs]
  split
  · next h =>
    have : 0 ≤ |a - b| := abs_nonneg _
    linarith
  · next h =>
    linarith [not_lt.mp h]

theorem scanUp_zero (vols : List Vol) (g : Nat) (ph : ℚ) (i iBest : Nat) (sd : ℚ) :
    scanUp vols g ph 0 i iBest sd = (iBest, sd) := rfl

theorem scanUp_succ (vols : List Vol) (g : Nat) (ph : ℚ) (fuel i iBest : Nat) (sd : ℚ) :
    scanUp vols g ph (fuel + 1) i iBest sd =
      (if (gv vols i).groupIndex = g then
        (if circDiff ph (gv vols i).phase ≤ sd then
          scanUp vols g ph fuel (i + 1) i (circDiff ph (gv vols i).phase)
         else scanUp vols g ph fuel (i + 1) iBest sd)
       else (iBest, sd)) := rfl

theorem scanDown_zero_eq (vols : List Vol) (g : Nat) (ph : ℚ) (iBest : Nat) (sd : ℚ) :
    scanDown vols g ph 0 iBest sd =
      (if (gv vols 0).groupIndex = g then
        (if circDiff ph (gv vols 0).phase ≤ sd then (0, circDiff ph (gv vols 0).phase)
         else (iBest, sd))
       else (iBest, sd)) := rfl

theorem scanDown_succ (vols : List Vol) (g : Nat) (ph : ℚ) (n iBest : Nat) (sd : ℚ) :
    scanDown vols g ph (n + 1) iBest sd =
      (if (gv vols (n + 1)).groupIndex = g then
        (if circDiff ph (gv vols (n + 1)).phase ≤ sd then
          scanDown vols g ph n (n + 1) (circDiff ph (gv vols (n + 1)).phase)
         else scanDown vols g ph n iBest sd)
       else (iBest, sd)) := rfl

theorem scanUp_stop (vols : List Vol) (g : Nat) (ph : ℚ) (fuel i iBest : Nat)
    (sd : ℚ) (h : (gv vols i).groupIndex ≠ g) :
    scanUp vols g ph fuel i iBest sd = (iBest, sd) := by
  cases fuel with
  | zero => rfl
  | succ n =>
    unfold scanUp
    rw [if_neg h]

/-- Splitting a `scanUp` run: while the scan stays inside the group, the
first `f1` steps can be evaluated first. -/
theorem scanUp_append (vols : List Vol) (g : Nat) (ph : ℚ) :
    ∀ (f1 : Nat) (f2 i iBest : Nat) (sd : ℚ),
      (∀ k, i ≤ k → k < i + f1 → (gv vols k).groupIndex = g) →
      scanUp vols g ph (f1 + f2) i iBest sd =
        scanUp vols g ph f2 (i + f1) (scanUp vols g ph f1 i iBest sd).1
          (scanUp vols g ph f1 i iBest sd).2 := by
  intro f1
  induction f1 with
  | zero =>
    intro f2 i iBest sd _
    rw [Nat.zero_add, Nat.add_zero]
    rfl
  | succ n ih =>
    intro f2 i iBest sd hin
    have hstep : (gv vols i).groupIndex = g := hin i le_rfl (by omega)
    have hinn : ∀ k, i + 1 ≤ k → k < (i + 1) + n → (gv vols k).groupIndex = g :=
      fun k hk1 hk2 => hin k (by omega) (by omega)
    have hL : scanUp vols g ph (n + 1 + f2) i iBest sd =
        (if circDiff ph (gv vols i).phase ≤ sd then
          scanUp vols g ph (n + f2) (i + 1) i (circDiff ph (gv vols i).phase)
         else scanUp vols g ph (n + f2) (i + 1) iBest sd) := by
      rw [show n + 1 + f2 = (n + f2) + 1 by omega, scanUp_succ, if_pos hstep]
    have hR : scanUp vols g ph (n + 1) i iBest sd =
        (if circDiff ph (gv vols i).phase ≤ sd then
          scanUp vols g ph n (i + 1) i (circDiff ph (gv vols i).phase)
         else scanUp vols g ph n (i + 1) iBest sd) := by
      rw [scanUp_succ, if_pos hstep]
    rw [hL, hR]
    rw [show i + (n + 1) = (i + 1) + n by omega]
    split
    · exact ih f2 (i + 1) i _ hinn
    · exact ih f2 (i + 1) iBest sd hinn

/-- Full characterization of a `scanUp` run over an in-group window:
the resulting distance is the minimum of the initial `smallest_diff` and
the window's circular distances, and — because the update uses `<=` —
the reported index is the *last* (highest) window index achieving it. -/
theorem scanUp_char (vols : List Vol) (g : Nat) (ph : ℚ) :
    ∀ (f i iBest : Nat) (sd : ℚ),
      (∀ k, i ≤ k → k < i + f → (gv vols k).groupIndex = g) →
      (scanUp vols g ph f i iBest sd).2 ≤ sd ∧
      (∀ k, i ≤ k → k < i + f →
        (scanUp vols g ph f i iBest sd).2 ≤ circDiff ph (gv vols k).phase) ∧
      (((scanUp vols g ph f i iBest sd).1 = iBest ∧
        (scanUp vols g ph f i iBest sd).2 = sd ∧
        (∀ k, i ≤ k → k < i + f → sd < circDiff ph (gv vols k).phase)) ∨
       (i ≤ (scanUp vols g ph f i iBest sd).1 ∧
        (scanUp vols g ph f i iBest sd).1 < i + f ∧
        circDiff ph (gv vols (scanUp vols g ph f i iBest sd).1).phase =
          (scanUp vols g ph f i iBest sd).2 ∧
        (∀ k, i ≤ k → k < i + f →
          circDiff ph (gv vols k).phase ≤ (scanUp vols g ph f i iBest sd).2 →
          k ≤ (scanUp vols g ph f i iBest sd).1))) := by
  intro f
  induction f with
  | zero =>
    intro i iBest sd _
    exact ⟨le_rfl, fun k hk1 hk2 => absurd hk2 (by omega),
      Or.inl ⟨rfl, rfl, fun k hk1 hk2 => absurd hk2 (by omega)⟩⟩
  | succ n ih =>
    intro i iBest sd hin
    have hstep : (gv vols i).groupIndex = g := hin i le_rfl (by omega)
    have hrw : scanUp vols g ph (n + 1) i iBest sd =
        (if circDiff ph (gv vols i).phase ≤ sd then
          scanUp vols g ph n (i + 1) i (circDiff ph (gv vols i).phase)
         else scanUp vols g ph n (i + 1) iBest sd) := by
      rw [scanUp_succ, if_pos hstep]
    rw [hrw]
    have hinn : ∀ k, i + 1 ≤ k → k < (i + 1) + n → (gv vols k).groupIndex = g :=
      fun k hk1 hk2 => hin k (by omega) (by omega)
    by_cases hd : circDiff ph (gv vols i).phase ≤ sd
    · rw [if_pos hd]
      obtain ⟨h1, h2, h3⟩ := ih (i + 1) i (circDiff ph (gv vols i).phase) hinn
      refine ⟨le_trans h1 hd, ?_, ?_⟩
      · intro k hk1 hk2
        rcases eq_or_lt_of_le hk1 with rfl | hklt
        · exact h1
        · exact h2 k (by omega) (by omega)
      · rcases h3 with ⟨ha, hb, hc⟩ | ⟨ha, hb, hc, hdd⟩
        · refine Or.inr ⟨by omega, by omega, by rw [ha, hb], ?_⟩
          intro k hk1 hk2 hk3
          rcases eq_or_lt_of_le hk1 with rfl | hklt
          · omega
          · have hck := hc k (by omega) (by omega)
            rw [← hb] at hck
            exact absurd (lt_of_lt_of_le hck hk3) (lt_irrefl _)
        · refine Or.inr ⟨by omega, by omega, hc, ?_⟩
          intro k hk1 hk2 hk3
          rcases eq_or_lt_of_le hk1 with rfl | hklt
          · omega
          · exact hdd k (by omega) (by omega) hk3
    · rw [if_neg hd]
      obtain ⟨h1, h2, h3⟩ := ih (i + 1) iBest sd hinn
      have hdlt : sd < circDiff ph (gv vols i).phase := not_le.mp hd
      refine ⟨h1, ?_, ?_⟩
      · intro k hk1 hk2
        rcases eq_or_lt_of_le hk1 with rfl | hklt
        · exact le_trans h1 (le_of_lt hdlt)
        · exact h2 k (by omega) (by omega)
      · rcases h3 with ⟨ha, hb, hc⟩ | ⟨ha, hb, hc, hdd⟩
        · refine Or.inl ⟨ha, hb, ?_⟩
          intro k hk1 hk2
          rcases eq_or_lt_of_le hk1 with rfl | hklt
          · exact hdlt
          · exact hc k (by omega) (by omega)
        · refine Or.inr ⟨by omega, by omega, hc, ?_⟩
          intro k hk1 hk2 hk3
          rcases eq_or_lt_of_le hk1 with rfl | hklt
          · exact absurd (lt_of_lt_of_le hdlt (le_trans hk3 h1)) (lt_irrefl _)
          · exact hdd k (by omega) (by omega) hk3

theorem scanDown_stop (vols : List Vol) (g : Nat) (ph : ℚ) (i iBest : Nat)
    (sd : ℚ) (h : (gv vols i).groupIndex ≠ g) :
    scanDown vols g ph i iBest sd = (iBest, sd) := by
  cases i with
  | zero =>
    unfold scanDown
    rw [if_neg h]
  | succ n =>
    unfold scanDown
    rw [if_neg h]

/-- Full characterization of a `scanDown` run over the in-group window
`[a, i]` (the scan proceeds downward and stops below `a`): the resulting
distance is the minimum, and — because the update uses `<=` on a
downward scan — the reported index is the *least* index achieving it. -/
theorem scanDown_char (vols : List Vol) (g : Nat) (ph : ℚ) (a : Nat)
    (hstop : a = 0 ∨ (gv vols (a - 1)).groupIndex ≠ g) :
    ∀ (i iBest : Nat) (sd : ℚ),
      a ≤ i →
      (∀ k, a ≤ k → k ≤ i → (gv vols k).groupIndex = g) →
      (scanDown vols g ph i iBest sd).2 ≤ sd ∧
      (∀ k, a ≤ k → k ≤ i →
        (scanDown vols g ph i iBest sd).2 ≤ circDiff ph (gv vols k).phase) ∧
      (((scanDown vols g ph i iBest sd).1 = iBest ∧
        (scanDown vols g ph i iBest sd).2 = sd ∧
        (∀ k, a ≤ k → k ≤ i → sd < circDiff ph (gv vols k).phase)) ∨
       (a ≤ (scanDown vols g ph i iBest sd).1 ∧
        (scanDown vols g ph i iBest sd).1 ≤ i ∧
        circDiff ph (gv vols (scanDown vols g ph i iBest sd).1).phase =
          (scanDown vols g ph i iBest sd).2 ∧
        (∀ k, a ≤ k → k ≤ i →
          circDiff ph (gv vols k).phase ≤ (scanDown vols g ph i iBest sd).2 →
          (scanDown vols g ph i iBest sd).1 ≤ k))) := by
  intro i
  induction i with
  | zero =>
    intro iBest sd ha hin
    obtain rfl : a = 0 := Nat.le_zero.mp ha
    have hg0 : (gv vols 0).groupIndex = g := hin 0 le_rfl le_rfl
    have hrw : scanDown vols g ph 0 iBest sd =
        (if circDiff ph (gv vols 0).phase ≤ sd then (0, circDiff ph (gv vols 0).phase)
         else (iBest, sd)) := by
      rw [scanDown_zero_eq, if_pos hg0]
    rw [hrw]
    by_cases hd : circDiff ph (gv vols 0).phase ≤ sd
    · rw [if_pos hd]
      refine ⟨hd, ?_, Or.inr ⟨le_rfl, le_rfl, rfl, ?_⟩⟩
      · intro k hk1 hk2
        obtain rfl : k = 0 := Nat.le_zero.mp hk2
        exact le_rfl
      · intro k hk1 hk2 _
        exact Nat.zero_le k
    · rw [if_neg hd]
      refine ⟨le_rfl, ?_, Or.inl ⟨rfl, rfl, ?_⟩⟩
      · intro k hk1 hk2
        obtain rfl : k = 0 := Nat.le_zero.mp hk2
        exact le_of_lt (not_le.mp hd)
      · intro k hk1 hk2
        obtain rfl : k = 0 := Nat.le_zero.mp hk2
        exact not_le.mp hd
  | succ n ih =>
    intro iBest sd ha hin
    have hgn : (gv vols (n + 1)).groupIndex = g := hin (n + 1) ha le_rfl
    have hrw : scanDown vols g ph (n + 1) iBest sd =
        (if circDiff ph (gv vols (n + 1)).phase ≤ sd then
          scanDown vols g ph n (n + 1) (circDiff ph (gv vols (n + 1)).phase)
         else scanDown vols g ph n iBest sd) := by
      rw [scanDown_succ, if_pos hgn]
    rw [hrw]
    rcases eq_or_lt_of_le ha with rfl | haless
    · -- the window is the single cell `i = a = n + 1`; the recursive call
      -- immediately leaves the group
      have hstop' : (gv vols n).groupIndex ≠ g := by
        rcases hstop with h0 | hne
        · exact absurd h0 (by omega)
        · simpa using hne
      by_cases hd : circDiff ph (gv vols (n + 1)).phase ≤ sd
      · rw [if_pos hd, scanDown_stop vols g ph n _ _ hstop']
        refine ⟨hd, ?_, Or.inr ⟨le_rfl, le_rfl, rfl, ?_⟩⟩
        · intro k hk1 hk2
          obtain rfl : k = n + 1 := by omega
          exact le_rfl
        · intro k hk1 hk2 _
          omega
      · rw [if_neg hd, scanDown_stop vols g ph n _ _ hstop']
        refine ⟨le_rfl, ?_, Or.inl ⟨rfl, rfl, ?_⟩⟩
        · intro k hk1 hk2
          obtain rfl : k = n + 1 := by omega
          exact le_of_lt (not_le.mp hd)
        · intro k hk1 hk2
          obtain rfl : k = n + 1 := by omega
          exact not_le.mp hd
    · have ha' : a ≤ n := by omega
      have hinn : ∀ k, a ≤ k → k ≤ n → (gv vols k).groupIndex = g :=
        fun k hk1 hk2 => hin k hk1 (by omega)
      by_cases hd : circDiff ph (gv vols (n + 1)).phase ≤ sd
      · rw [if_pos hd]
        obtain ⟨h1, h2, h3⟩ := ih (n + 1) (circDiff ph (gv vols (n + 1)).phase) ha' hinn
        refine ⟨le_trans h1 hd, ?_, ?_⟩
        · intro k hk1 hk2
          rcases eq_or_lt_of_le hk2 with rfl | hklt
          · exact h1
          · exact h2 k hk1 (by omega)
        · rcases h3 with ⟨hx, hy, hz⟩ | ⟨hx, hy, hz, hw⟩
          · refine Or.inr ⟨by omega, by omega, by rw [hx, hy], ?_⟩
            intro k hk1 hk2 hk3
            rcases eq_or_lt_of_le hk2 with rfl | hklt
            · omega
            · have hzk := hz k hk1 (by omega)
              rw [← hy] at hzk
              exact absurd (lt_of_lt_of_le hzk hk3) (lt_irrefl _)
          · refine Or.inr ⟨hx, by omega, hz, ?_⟩
            intro k hk1 hk2 hk3
            rcases eq_or_lt_of_le hk2 with rfl | hklt
            · omega
            · exact hw k hk1 (by omega) hk3
      · rw [if_neg hd]
        obtain ⟨h1, h2, h3⟩ := ih iBest sd ha' hinn
        have hdlt : sd < circDiff ph (gv vols (n + 1)).phase := not_le.mp hd
        refine ⟨h1, ?_, ?_⟩
        · intro k hk1 hk2
          rcases eq_or_lt_of_le hk2 with rfl | hklt
          · exact le_trans h1 (le_of_lt hdlt)
          · exact h2 k hk1 (by omega)
        · rcases h3 with ⟨hx, hy, hz⟩ | ⟨hx, hy, hz, hw⟩
          · refine Or.inl ⟨hx, hy, ?_⟩
            intro k hk1 hk2
            rcases eq_or_lt_of_le hk2 with rfl | hklt
            · exact hdlt
            · exact hz k hk1 (by omega)
          · refine Or.inr ⟨hx, by omega, hz, ?_⟩
            intro k hk1 hk2 hk3
            rcases eq_or_lt_of_le hk2 with rfl | hklt
            · exact absurd (lt_of_lt_of_le hdlt (le_trans hk3 h1)) (lt_irrefl _)
            · exact hw k hk1 (by omega) hk3

/-- `walkUp` starting inside a group block ending right before `a` stops
exactly at `a`. -/
theorem walkUp_to (vols : List Vol) (g : Nat) (a : Nat)
    (hga : (gv vols a).groupIndex ≠ g) :
    ∀ (f i : Nat), i ≤ a → a ≤ i + f →
      (∀ k, i ≤ k → k < a → (gv vols k).groupIndex = g) →
      walkUp vols g f i = a := by
  intro f
  induction f with
  | zero =>
    intro i h1 h2 _
    obtain rfl : i = a := by omega
    rfl
  | succ n ih =>
    intro i h1 h2 hin
    rcases eq_or_lt_of_le h1 with rfl | hlt
    · unfold walkUp
      rw [if_neg hga]
    · unfold walkUp
      rw [if_pos (hin i le_rfl hlt)]
      exact ih (i + 1) (by omega) (by omega) (fun k hk1 hk2 => hin k (by omega) hk2)

/-- `walkDown` starting inside a group block beginning at `a'` (with a
different group right below) stops exactly at `a' - 1`. -/
theorem walkDown_to (vols : List Vol) (g : Nat) (a' : Nat) (ha1 : 1 ≤ a')
    (hstop : (gv vols (a' - 1)).groupIndex ≠ g) :
    ∀ i, a' ≤ i + 1 →
      (∀ k, a' ≤ k → k ≤ i → (gv vols k).groupIndex = g) →
      walkDown vols g i = a' - 1 := by
  intro i
  induction i with
  | zero =>
    intro h1 _
    obtain rfl : a' = 1 := by omega
    rfl
  | succ n ih =>
    intro h1 hin
    rcases eq_or_lt_of_le h1 with heq | hlt
    · have : a' - 1 = n + 1 := by omega
      unfold walkDown
      rw [if_neg (this ▸ hstop)]
      omega
    · unfold walkDown
      rw [if_pos (hin (n + 1) (by omega) le_rfl)]
      exact ih (by omega) (fun k hk1 hk2 => hin k hk1 (by omega))

/-! ### Claim C6 -/

/-- C6 (amended): with the cursor's group block extending down to `a'`
(previous group `[p, a'-1]`) resp. up to `a-1` (next group `[a, b]`),
`get_prev_group_index` returns the *least* index of the previous group
achieving the minimal circular phase distance — ties favor the lower
index — while `get_next_group_index` returns the *greatest* index of the
next group achieving the minimal circular phase distance: because the
upward scan also updates on `<=`, ties favor the higher (last-scanned)
index, not the first-encountered one. -/
theorem c6_group_navigation_tie_break_amended (tl : Timeline) :
    (∀ a' p : Nat,
      1 ≤ a' → a' ≤ tl.index →
      (∀ k, a' ≤ k → k ≤ tl.index →
        (gv tl.volumes k).groupIndex = (gv tl.volumes tl.index).groupIndex) →
      (gv tl.volumes (a' - 1)).groupIndex ≠ (gv tl.volumes tl.index).groupIndex →
      p ≤ a' - 1 →
      (∀ k, p ≤ k → k ≤ a' - 1 →
        (gv tl.volumes k).groupIndex = (gv tl.volumes (a' - 1)).groupIndex) →
      (p = 0 ∨ (gv tl.volumes (p - 1)).groupIndex ≠ (gv tl.volumes (a' - 1)).groupIndex) →
      (p ≤ tl.get_prev_group_index ∧ tl.get_prev_group_index ≤ a' - 1 ∧
       (∀ k, p ≤ k → k ≤ a' - 1 →
         circDiff (gv tl.volumes tl.index).phase
             (gv tl.volumes tl.get_prev_group_index).phase ≤
           circDiff (gv tl.volumes tl.index).phase (gv tl.volumes k).phase) ∧
       (∀ k, p ≤ k → k ≤ a' - 1 →
         circDiff (gv tl.volumes tl.index).phase (gv tl.volumes k).phase ≤
           circDiff (gv tl.volumes tl.index).phase
             (gv tl.volumes tl.get_prev_group_index).phase →
         tl.get_prev_group_index ≤ k))) ∧
    (∀ a b : Nat,
      tl.index < a → a ≤ b → b ≤ tl.volumes.length - 1 →
      (∀ k, tl.index ≤ k → k < a →
        (gv tl.volumes k).groupIndex = (gv tl.volumes tl.index).groupIndex) →
      (gv tl.volumes a).groupIndex ≠ (gv tl.volumes tl.index).groupIndex →
      (∀ k, a ≤ k → k ≤ b →
        (gv tl.volumes k).groupIndex = (gv tl.volumes a).groupIndex) →
      (b = tl.volumes.length - 1 ∨
        (gv tl.volumes (b + 1)).groupIndex ≠ (gv tl.volumes a).groupIndex) →
      (a ≤ tl.get_next_group_index ∧ tl.get_next_group_index ≤ b ∧
       (∀ k, a ≤ k → k ≤ b →
         circDiff (gv tl.volumes tl.index).phase
             (gv tl.volumes tl.get_next_group_index).phase ≤
           circDiff (gv tl.volumes tl.index).phase (gv tl.volumes k).phase) ∧
       (∀ k, a ≤ k → k ≤ b →
         circDiff (gv tl.volumes tl.index).phase (gv tl.volumes k).phase ≤
           circDiff (gv tl.volumes tl.index).phase
             (gv tl.volumes tl.get_next_group_index).phase →
         k ≤ tl.get_next_group_index))) := by
  constructor
  · intro a' p ha1 hai hcur hga hpa hblk hstopp
    have hw : walkDown tl.volumes (gv tl.volumes tl.index).groupIndex tl.index =
        a' - 1 :=
      walkDown_to tl.volumes _ a' ha1 hga tl.index (by omega) hcur
    have hprev : tl.get_prev_group_index =
        (scanDown tl.volumes (gv tl.volumes (a' - 1)).groupIndex
          (gv tl.volumes tl.index).phase (a' - 1) (a' - 1) 1).1 := by
      unfold Timeline.get_prev_group_index
      dsimp only
      rw [hw]
    obtain ⟨h1, h2, h3⟩ := scanDown_char tl.volumes
      ((gv tl.volumes (a' - 1)).groupIndex) ((gv tl.volumes tl.index).phase)
      p hstopp (a' - 1) (a' - 1) 1 hpa hblk
    rcases h3 with ⟨_, _, hc⟩ | ⟨hx, hy, hz, hw2⟩
    · exact absurd (hc (a' - 1) hpa le_rfl)
        (not_lt.mpr (circDiff_le_one _ _))
    · rw [hprev]
      refine ⟨hx, hy, ?_, ?_⟩
      · intro k hk1 hk2
        rw [hz]
        exact h2 k hk1 hk2
      · intro k hk1 hk2 hk3
        rw [hz] at hk3
        exact hw2 k hk1 hk2 hk3
  · intro a b hia hab hbm hcur hga hblk hstopb
    have hidxm : tl.index ≤ tl.volumes.length - 1 := by omega
    have hwu : walkUp tl.volumes (gv tl.volumes tl.index).groupIndex
        (tl.volumes.length - 1 - tl.index) tl.index = a :=
      walkUp_to tl.volumes _ a hga _ tl.index (by omega) (by omega) hcur
    have hfuel : tl.volumes.length - 1 + 1 - a =
        (b + 1 - a) + (tl.volumes.length - 1 - b) := by omega
    have hwin : ∀ k, a ≤ k → k < a + (b + 1 - a) →
        (gv tl.volumes k).groupIndex = (gv tl.volumes a).groupIndex :=
      fun k hk1 hk2 => hblk k hk1 (by omega)
    have hnext : tl.get_next_group_index =
        (scanUp tl.volumes (gv tl.volumes a).groupIndex
          (gv tl.volumes tl.index).phase (b + 1 - a) a a 1).1 := by
      unfold Timeline.get_next_group_index
      dsimp only
      rw [hwu, hfuel,
        scanUp_append tl.volumes _ _ (b + 1 - a) (tl.volumes.length - 1 - b) a a 1 hwin]
      rcases hstopb with heq | hne
      · rw [show tl.volumes.length - 1 - b = 0 by omega, scanUp_zero]
      · rw [show a + (b + 1 - a) = b + 1 by omega, scanUp_stop _ _ _ _ _ _ _ hne]
    obtain ⟨h1, h2, h3⟩ := scanUp_char tl.volumes
      ((gv tl.volumes a).groupIndex) ((gv tl.volumes tl.index).phase)
      (b + 1 - a) a a 1 hwin
    rcases h3 with ⟨_, _, hc⟩ | ⟨hx, hy, hz, hw2⟩
    · exact absurd (hc a le_rfl (by omega))
        (not_lt.mpr (circDiff_le_one _ _))
    · rw [hnext]
      refine ⟨hx, by omega, ?_, ?_⟩
      · intro k hk1 hk2
        rw [hz]
        exact h2 k hk1 (by omega)
      · intro k hk1 hk2 hk3
        rw [hz] at hk3
        exact hw2 k hk1 (by omega) hk3

/-- C6 counterexample: from the phase-0 volume, the two members of the
next group lie at the same circular distance (1/4), yet
`get_next_group_index` returns 2 — the *higher* index of the tied pair,
not the first-encountered (lowest) index 1 that the claim states. -/
theorem c6_next_tie_prefers_higher_index_cex :
    circDiff (gv tlC6.volumes 0).phase (gv tlC6.volumes 1).phase =
      circDiff (gv tlC6.volumes 0).phase (gv tlC6.volumes 2).phase ∧
    (gv tlC6.volumes 1).groupIndex = (gv tlC6.volumes 2).groupIndex ∧
    tlC6.get_next_group_index = 2 ∧
    tlC6.get_next_group_index ≠ 1 := by
  refine ⟨by decide, by decide, by decide, by decide⟩

theorem c6_group_navigation_witness :
    ((1 : Nat) ≤ 2 ∧ 2 ≤ tlW6.index ∧
     (∀ k, 2 ≤ k → k ≤ tlW6.index →
       (gv tlW6.volumes k).groupIndex = (gv tlW6.volumes tlW6.index).groupIndex) ∧
     (gv tlW6.volumes (2 - 1)).groupIndex ≠ (gv tlW6.volumes tlW6.index).groupIndex ∧
     (0 : Nat) ≤ 2 - 1 ∧
     (∀ k, 0 ≤ k → k ≤ 2 - 1 →
       (gv tlW6.volumes k).groupIndex = (gv tlW6.volumes (2 - 1)).groupIndex)) ∧
    (0 ≤ tlW6.get_prev_group_index ∧ tlW6.get_prev_group_index ≤ 2 - 1 ∧
     (∀ k, 0 ≤ k → k ≤ 2 - 1 →
       circDiff (gv tlW6.volumes tlW6.index).phase
           (gv tlW6.volumes tlW6.get_prev_group_index).phase ≤
         circDiff (gv tlW6.volumes tlW6.index).phase (gv tlW6.volumes k).phase)) ∧
    (tlC6.index < 1 ∧ (1 : Nat) ≤ 2 ∧ 2 ≤ tlC6.volumes.length - 1) ∧
    (1 ≤ tlC6.get_next_group_index ∧ tlC6.get_next_group_index ≤ 2) :=
  have hprev := (c6_group_navigation_tie_break_amended tlW6).1 2 0
    (by decide) (by decide)
    (by intro k hk1 hk2
        replace hk2 : k ≤ 2 := hk2
        interval_cases k <;> first | decide | omega)
    (by decide) (by decide)
    (by intro k hk1 hk2
        replace hk2 : k ≤ 1 := hk2
        interval_cases k <;> decide)
    (Or.inl rfl)
  have hnext := (c6_group_navigation_tie_break_amended tlC6).2 1 2
    (by decide) (by decide) (by decide)
    (by intro k hk1 hk2
        replace hk2 : k < 1 := hk2
        interval_cases k <;> decide)
    (by decide)
    (by intro k hk1 hk2
        replace hk1 : 1 ≤ k := hk1
        replace hk2 : k ≤ 2 := hk2
        interval_cases k <;> decide)
    (Or.inl (by decide))
  ⟨⟨by decide, by decide,
    by intro k hk1 hk2
       replace hk2 : k ≤ 2 := hk2
       interval_cases k <;> first | decide | omega,
    by decide, by decide,
    by intro k hk1 hk2
       replace hk2 : k ≤ 1 := hk2
       interval_cases k <;> decide⟩,
   ⟨hprev.1, hprev.2.1, hprev.2.2.1⟩,
   ⟨by decide, by decide, by decide⟩,
   ⟨hnext.1, hnext.2.1⟩⟩

/-! ### Claim C10 -/

/-- C10 (confirmed): on a non-empty, (group, cycle)-sorted timeline with
a valid cursor, when the current volume belongs to the first group
`get_prev_group_index` answers 0, and when it belongs to the last group
`get_next_group_index` answers `len(volumes) - 1`: the boundary queries
answer from within the current boundary group and never wrap around. -/
theorem c10_boundary_group_navigation (tl : Timeline)
    (hlen : 0 < tl.volumes.length) (hidx : tl.index < tl.volumes.length)
    (hs : List.Pairwise (fun u v : Vol => u.groupIndex ≤ v.groupIndex) tl.volumes) :
    ((gv tl.volumes tl.index).groupIndex = (gv tl.volumes 0).groupIndex →
      tl.get_prev_group_index = 0) ∧
    ((gv tl.volumes tl.index).groupIndex =
        (gv tl.volumes (tl.volumes.length - 1)).groupIndex →
      tl.get_next_group_index = tl.volumes.length - 1) := by
  constructor
  · intro hfirst
    have hconst : ∀ k, k ≤ tl.index →
        (gv tl.volumes k).groupIndex = (gv tl.volumes tl.index).groupIndex := by
      intro k hk
      have h1 := group_mono hs hlen (lt_of_le_of_lt hk hidx)
        (Nat.zero_le k)
      have h2 := group_mono hs (lt_of_le_of_lt hk hidx) hidx hk
      omega
    unfold Timeline.get_prev_group_index
    dsimp only
    rw [walkDown_const tl.volumes _ tl.index hconst]
    unfold scanDown
    rw [if_pos rfl]
    dsimp only
    split <;> rfl
  · intro hlast
    have hconst : ∀ k, tl.index ≤ k →
        k ≤ tl.index + (tl.volumes.length - 1 - tl.index) →
        (gv tl.volumes k).groupIndex = (gv tl.volumes tl.index).groupIndex := by
      intro k hk1 hk2
      have hklt : k < tl.volumes.length := by omega
      have h1 := group_mono hs hidx hklt hk1
      have h2 := group_mono hs hklt (by omega : tl.volumes.length - 1 < tl.volumes.length)
        (by omega)
      omega
    unfold Timeline.get_next_group_index
    dsimp only
    rw [walkUp_const tl.volumes _ _ tl.index hconst]
    have hexp : tl.index + (tl.volumes.length - 1 - tl.index) =
        tl.volumes.length - 1 := by omega
    rw [hexp]
    have hfuel : tl.volumes.length - 1 + 1 - (tl.volumes.length - 1) = 1 := by omega
    rw [hfuel]
    unfold scanUp
    rw [if_pos rfl]
    dsimp only
    split <;> rfl

theorem c10_boundary_group_witness :
    (0 < tlW10.volumes.length ∧ tlW10.index < tlW10.volumes.length ∧
     List.Pairwise (fun u v : Vol => u.groupIndex ≤ v.groupIndex) tlW10.volumes ∧
     (gv tlW10.volumes tlW10.index).groupIndex = (gv tlW10.volumes 0).groupIndex) ∧
    tlW10.get_prev_group_index = 0 :=
  ⟨⟨by decide, by decide, by decide, by decide⟩,
   (c10_boundary_group_navigation tlW10 (by decide) (by decide) (by decide)).1
     (by decide)⟩

theorem c9_all_fail_witness :
    ([srcW9] ≠ ([] : List Source) ∧
     (∀ s ∈ [srcW9], (((mkVolume s).read_header).2).isSome)) ∧
    (tlW9.set_file_paths [srcW9] (fun _ => false)).1 = tlW9 ∧
    (tlW9.set_file_paths [srcW9] (fun _ => false)).2.length = 1 :=
  ⟨⟨by decide, by decide⟩,
   c9_all_fail_preserves_state tlW9 [srcW9] (fun _ => false) (by decide) (by decide)
     (fun _ => rfl)⟩

end OCMV
